import Mathlib

/-!
# Sobel edge pipeline: embedding of `NaiveSobel.cpp` and `Sobel.cpp`

The two programs share the per-pixel functions `get_pixel_grayscale` and
`get_pixel_sobel` verbatim.  `NaiveSobel.cpp` drives them with the whole-frame
loops `get_grayscale` / `get_sobel`; `Sobel.cpp` starts four `generate_subset`
workers from `generate_image`.

Conventions of the embedding

* `uint8_t` samples are `Byte = Fin 256`; every other machine integer is an `Int`
  or `Nat` that is wrapped explicitly (`toInt16`, `toUInt16`, `toUInt8`, ...)
  wherever the C++ code stores it into a fixed-width variable.  A conversion that
  cannot change the value because of the source type (`uint8_t` to `int16_t`,
  `uint8_t` to `double`) is left implicit.
* `cv::Mat` is a grid `rows × cols` with a total sample function; the accessors
  `Mat.at?` and `Mat.setAt` are defined inside the grid only: an index outside
  it is undefined behaviour in the source and `none` here.
* `double` arithmetic is IEEE-754 binary64 with round-to-nearest-even, one
  rounding per operation (no fused multiply-add, no extended precision),
  evaluated left to right as written.  All doubles that occur in
  `get_pixel_grayscale` are non-negative multiples of `2^-56` below `2^8`, so a
  double is represented by the natural number `n` with value `n / 2^56` and
  rounding is `round53`.
-/

namespace Sobel

/-! ## Machine integers -/

/-- An 8-bit unsigned sample (`uint8_t`). -/
abbrev Byte := Fin 256

/-- Conversion to `int16_t`: two's-complement wrap-around. -/
def toInt16 (v : Int) : Int := (v + 32768) % 65536 - 32768

/-- Conversion to `uint16_t`: reduction modulo `2^16`. -/
def toUInt16 (v : Int) : Int := v % 65536

/-- Conversion to `int` (32 bit): two's-complement wrap-around. -/
def toInt32 (v : Int) : Int := (v + 2147483648) % 4294967296 - 2147483648

/-- Conversion to `size_t` (64 bit): reduction modulo `2^64`. -/
def toSizeT (v : Int) : Nat := (v % 18446744073709551616).toNat

/-- Conversion to `uint8_t`: reduction modulo `2^8`. -/
def toUInt8 (v : Int) : Byte := Fin.ofNat (v % 256).toNat

/-- The constant `UINT8_MAX`. -/
def UINT8_MAX : Int := 255

/-! ## binary64 arithmetic on the range used by the luma sum -/

/-- Number of fixed-point units per 1.0: the double `d` is stored as `d * 2^56`. -/
def DBL_ONE : Nat := 2 ^ 56

/-- Position of the leading bit of `n` (`floor (log2 n)`, and `0` for `n = 0`),
by repeated halving; the first argument bounds the number of halvings. -/
def ilog2Aux : Nat → Nat → Nat
  | 0, _ => 0
  | fuel + 1, n => if n < 2 then 0 else ilog2Aux fuel (n / 2) + 1

/-- Position of the leading bit of `n`. -/
def ilog2 (n : Nat) : Nat := ilog2Aux n n

/-- Round a non-negative quantity to 53 significant bits, ties to even: the
rounding that every binary64 operation applies to its exact result. -/
def round53 (n : Nat) : Nat :=
  let s := ilog2 n - 52
  let q := n / 2 ^ s
  let r := n % 2 ^ s
  if 2 * r < 2 ^ s then q * 2 ^ s
  else if 2 ^ s < 2 * r then (q + 1) * 2 ^ s
  else if q % 2 = 0 then q * 2 ^ s
  else (q + 1) * 2 ^ s

/-- The double nearest to the literal `0.2126`, `0x1.b367a0f9096bcp-3`. -/
def LIT_0_2126 : Nat := 0x1b367a0f9096bc * 2

/-- The double nearest to the literal `0.7152`, `0x1.6e2eb1c432ca5p-1`. -/
def LIT_0_7152 : Nat := 0x16e2eb1c432ca5 * 8

/-- The double nearest to the literal `0.0722`, `0x1.27bb2fec56d5dp-4`. -/
def LIT_0_0722 : Nat := 0x127bb2fec56d5d

/-- Product `lit * (double)c` of a double literal and a `uint8_t` promoted to double. -/
def dmul (lit : Nat) (c : Byte) : Nat := round53 (lit * c.val)

/-- Sum of two doubles. -/
def dadd (a b : Nat) : Nat := round53 (a + b)

/-- Conversion of a non-negative double to an integer type: truncation toward
zero (the fractional part is discarded). -/
def dtrunc (d : Nat) : Nat := d / DBL_ONE

/-- The double expression `0.2126*red + 0.7152*green + 0.0722*blue`: three
products, added left to right. -/
def luma_double (red green blue : Byte) : Nat :=
  dadd (dadd (dmul LIT_0_2126 red) (dmul LIT_0_7152 green)) (dmul LIT_0_0722 blue)

/-- The local `pixel_grayscale` (a `uint16_t`) of `get_pixel_grayscale` at its
`return`: the truncated double, clamped to `UINT8_MAX`. -/
def pixel_grayscale_clamped (red green blue : Byte) : Int :=
  let pixel_grayscale : Int := toUInt16 (dtrunc (luma_double red green blue))
  if pixel_grayscale > UINT8_MAX then UINT8_MAX else pixel_grayscale

/-- Embedding of `get_pixel_grayscale` (identical in both programs): the local
is narrowed to the `uint8_t` return type. -/
def get_pixel_grayscale (red green blue : Byte) : Byte :=
  toUInt8 (pixel_grayscale_clamped red green blue)

/-! ## Frames -/

/-- A `cv::Mat` with elements of type `α`: `rows × cols` samples, `data row col`. -/
structure Mat (α : Type) where
  rows : Nat
  cols : Nat
  data : Nat → Nat → α

/-- Read through `cv::Mat::at(row, col)`.  Outside the grid the source has
undefined behaviour; the embedding returns `none`. -/
def Mat.at? {α : Type} (m : Mat α) (row col : Int) : Option α :=
  if 0 ≤ row ∧ row < m.rows ∧ 0 ≤ col ∧ col < m.cols then
    some (m.data row.toNat col.toNat)
  else none

/-- Write through `cv::Mat::at(row, col) = v`; `none` outside the grid. -/
def Mat.setAt {α : Type} (m : Mat α) (row col : Int) (v : α) : Option (Mat α) :=
  if 0 ≤ row ∧ row < m.rows ∧ 0 ≤ col ∧ col < m.cols then
    some { m with data := fun r c => if r = row.toNat ∧ c = col.toNat then v else m.data r c }
  else none

/-- The frame `cv::Mat::zeros(cv::Size(width, height), CV_8UC1)` allocated in `main`. -/
def Mat.zeros (width height : Nat) : Mat Byte :=
  { rows := height, cols := width, data := fun _ _ => 0 }

/-- A `cv::Vec3b` pixel; the decoder delivers channel 0 = blue, 1 = green, 2 = red. -/
abbrev Vec3b := Fin 3 → Byte

/-- The loop `for (int k = 0; k < n; k++) state = body(k, state)`, stopping at the
first iteration whose body is undefined. -/
def forLoop {σ : Type} : Nat → (Nat → σ → Option σ) → σ → Option σ
  | 0, _, s => some s
  | n + 1, body, s => (forLoop n body s).bind (body n)

/-! ## Sobel Kernel Evaluator -/

/-- The constant table `x_kern`. -/
def x_kern : List (List Int) :=
  [[-1, 0, 1],
   [-2, 0, 2],
   [-1, 0, 1]]

/-- The constant table `y_kern`. -/
def y_kern : List (List Int) :=
  [[1, 2, 1],
   [0, 0, 0],
   [-1, -2, -1]]

/-- The table access `kern[i][j]`. -/
def kern_at (kern : List (List Int)) (i j : Nat) : Int := (kern.getD i []).getD j 0

/-- Body of the inner loop of `get_pixel_sobel`: one read and the two
`int16_t` accumulator updates (computed in `int`, stored back as `int16_t`). -/
def sobel_accumulate (grayscale_frame : Mat Byte) (grayscale_x grayscale_y : Int)
    (j i : Nat) (grad : Int × Int) : Option (Int × Int) :=
  (grayscale_frame.at? (grayscale_y + j - 1) (grayscale_x + i - 1)).map
    fun pixel_grayscale =>
      (toInt16 (grad.1 + (pixel_grayscale.val : Int) * kern_at x_kern i j),
       toInt16 (grad.2 + (pixel_grayscale.val : Int) * kern_at y_kern i j))

/-- The magnitude `x_mag` / `y_mag`: `(grad < 0) ? grad * -1 : grad`, stored in a
`uint16_t`. -/
def sobel_mag (grad : Int) : Int := toUInt16 (if grad < 0 then grad * -1 else grad)

/-- The tail of `get_pixel_sobel` after the loops: magnitudes, sum, clamp. -/
def sobel_combine (grad : Int × Int) : Byte :=
  let x_mag := sobel_mag grad.1
  let y_mag := sobel_mag grad.2
  let out_big := toUInt16 (x_mag + y_mag)
  let out_big := if out_big > UINT8_MAX then UINT8_MAX else out_big
  toUInt8 out_big

/-- Embedding of `get_pixel_sobel` (identical in both programs); `x` and `y` are
coordinates of the Sobel frame. -/
def get_pixel_sobel (x y : Int) (grayscale_frame : Mat Byte) : Option Byte :=
  let grayscale_x := x + 1
  let grayscale_y := y + 1
  (forLoop 3 (fun j grad =>
      forLoop 3 (fun i grad =>
        sobel_accumulate grayscale_frame grayscale_x grayscale_y j i grad) grad)
    (0, 0)).map sobel_combine

/-- The accumulators `(x_grad, y_grad)` of `get_pixel_sobel` after the first `n`
iterations of its loop nest, iteration `k` being `j = k / 3`, `i = k % 3`. -/
def sobel_steps (x y : Int) (grayscale_frame : Mat Byte) (n : Nat) : Option (Int × Int) :=
  forLoop n (fun k grad =>
    sobel_accumulate grayscale_frame (x + 1) (y + 1) (k / 3) (k % 3) grad) (0, 0)

/-! ## Frame Convolver (`NaiveSobel.cpp`) -/

namespace Naive

/-- Embedding of `get_grayscale(input_frame, grayscale_frame)`; the result is
the grayscale frame after the call. -/
def get_grayscale (input_frame : Mat Vec3b) (grayscale_frame : Mat Byte) :
    Option (Mat Byte) :=
  forLoop input_frame.rows (fun y frame =>
      forLoop input_frame.cols (fun x frame =>
        (input_frame.at? y x).bind fun input_pixel =>
          frame.setAt y x
            (get_pixel_grayscale (input_pixel 2) (input_pixel 1) (input_pixel 0)))
        frame)
    grayscale_frame

/-- Embedding of `get_sobel(grayscale_frame, sobel_frame)`; the result is the
Sobel frame after the call. -/
def get_sobel (grayscale_frame sobel_frame : Mat Byte) : Option (Mat Byte) :=
  forLoop sobel_frame.rows (fun y frame =>
      forLoop sobel_frame.cols (fun x frame =>
        (get_pixel_sobel x y grayscale_frame).bind fun v => frame.setAt y x v)
        frame)
    sobel_frame

/-- The struct `FnameInfo`. -/
structure FnameInfo where
  in_vid_filename : String

/-- A call of `exit(status)` after the diagnostic `message` was printed. -/
structure ProcessExit where
  message : String
  status : Int

/-- Embedding of `parse_args` (identical in both programs): either the process
exits, or the call returns with `fname_info` updated. -/
def parse_args (argc : Int) (argv : Nat → String) (fname_info : FnameInfo) :
    Except ProcessExit FnameInfo :=
  if argc ≠ 2 then
    Except.error { message := "Bad arguments, requires path to input video.\n", status := 1 }
  else
    Except.ok { fname_info with in_vid_filename := argv 1 }

/-- The two buffers that `main` dimensions once from the stream geometry:
`graysacle_frame = zeros(Size(w, h))`, `sobel_frame = zeros(Size(w - 2, h - 2))`. -/
def main_buffers (input_width input_height : Int) : Mat Byte × Mat Byte :=
  (Mat.zeros input_width.toNat input_height.toNat,
   Mat.zeros (input_width - 2).toNat (input_height - 2).toNat)

/-- One iteration of the frame loop of `main`: both stages on the reused buffers;
the result is the Sobel frame handed to the display. -/
def process_frame (input_frame : Mat Vec3b) (grayscale_frame sobel_frame : Mat Byte) :
    Option (Mat Byte) :=
  (get_grayscale input_frame grayscale_frame).bind fun gray => get_sobel gray sobel_frame

end Naive

/-! ## Tiled Work Scheduler (`Sobel.cpp`) -/

namespace Threaded

/-- The constant `NUM_THREADS`. -/
def NUM_THREADS : Nat := 4

/-- The numeric fields of `struct ThreadArgument`. -/
structure ThreadArgument where
  bottom_row_index : Int
  rows_to_read : Nat

/-- The frames that the three pointer fields of every `ThreadArgument` refer to. -/
structure Frames where
  input_frame : Mat Vec3b
  grayscale_frame : Mat Byte
  sobel_frame : Mat Byte

/-- The value `generate_image` stores in `args[i]` for a frame of `cols` columns:
`size_t` quanta, `int` start index. -/
def thread_argument (cols : Nat) (i : Nat) : ThreadArgument :=
  let small_row_quantum : Nat := toSizeT ((cols : Int) / (NUM_THREADS : Int))
  let big_row_quantum : Nat :=
    toSizeT ((cols : Int) - toSizeT ((small_row_quantum : Int) * ((NUM_THREADS : Int) - 1)))
  { bottom_row_index := toInt32 (toSizeT ((i : Int) * small_row_quantum))
    rows_to_read := if i = NUM_THREADS - 1 then big_row_quantum else small_row_quantum }

/-- Embedding of `get_grayscale(input_frame, grayscale_frame, lower_row, quantum)` of
`Sobel.cpp`: the body does not mention `lower_row` or `quantum`. -/
def get_grayscale (input_frame : Mat Vec3b) (grayscale_frame : Mat Byte)
    (_lower_row : Int) (_quantum : Nat) : Option (Mat Byte) :=
  forLoop input_frame.rows (fun y frame =>
      forLoop input_frame.cols (fun x frame =>
        (input_frame.at? y x).bind fun input_pixel =>
          frame.setAt y x
            (get_pixel_grayscale (input_pixel 2) (input_pixel 1) (input_pixel 0)))
        frame)
    grayscale_frame

/-- Embedding of `get_sobel(grayscale_frame, sobel_frame, lower_row, quantum)` of
`Sobel.cpp`: the body does not mention `lower_row` or `quantum`. -/
def get_sobel (grayscale_frame sobel_frame : Mat Byte)
    (_lower_row : Int) (_quantum : Nat) : Option (Mat Byte) :=
  forLoop sobel_frame.rows (fun y frame =>
      forLoop sobel_frame.cols (fun x frame =>
        (get_pixel_sobel x y grayscale_frame).bind fun v => frame.setAt y x v)
        frame)
    sobel_frame

/-- Embedding of the worker `generate_subset`: its body is the barrier wait alone,
between two comments; it reads and writes no frame. -/
def generate_subset (_arg : ThreadArgument) (frames : Frames) : Option Frames :=
  some frames

/-- Embedding of `generate_image`: the four workers are created and joined.  The
barrier is initialised for `NUM_THREADS` parties and exactly `NUM_THREADS`
workers wait on it, so all of them pass; no worker touches a frame, so the
effects compose in any order.  The result is the pair of buffers after the join. -/
def generate_image (input_frame : Mat Vec3b) (grayscale_frame sobel_frame : Mat Byte) :
    Option (Mat Byte × Mat Byte) :=
  (forLoop NUM_THREADS
      (fun i frames => generate_subset (thread_argument input_frame.cols i) frames)
      { input_frame := input_frame, grayscale_frame := grayscale_frame,
        sobel_frame := sobel_frame }).map
    fun frames => (frames.grayscale_frame, frames.sobel_frame)

end Threaded

/-! ## Process entry (`main` of both programs) -/

/-- What an opened `cv::VideoCapture` delivers: the geometry reported by
`CAP_PROP_FRAME_WIDTH` and `CAP_PROP_FRAME_HEIGHT` (as `int`) and the frames read
by `capturer >> input_frame`; after the last one the read yields an empty frame. -/
structure Video where
  width : Int
  height : Int
  frames : List (Mat Vec3b)

/-- The collaborators of `main`: `capturer.open(name)` succeeds exactly on the
names that have a video, and `wait_key k` is the value of the `k`-th call of
`cv::waitKey(1)`. -/
structure World where
  open_video : String → Option Video
  wait_key : Nat → Int

/-- The observable course of one run of `main`: the diagnostics printed, the names
passed to `capturer.open`, the frames passed to `cv::imshow` (every frame that
was processed, in order) and the exit status. -/
structure Run where
  printed : List String
  opened : List String
  shown : List (Mat Byte)
  status : Int

/-- The loop `while (!is_processing_done)` of `main`; `step` is the processing of
one frame on the two reused buffers, `k` counts the calls of `cv::waitKey` and
`shown` collects the frames displayed so far.  An empty frame ends the loop, a
key press breaks it, undefined behaviour of `step` is `none`. -/
def frame_loop (step : Mat Vec3b → Mat Byte → Mat Byte → Option (Mat Byte × Mat Byte))
    (wait_key : Nat → Int) :
    List (Mat Vec3b) → Mat Byte → Mat Byte → Nat → List (Mat Byte) → Option (List (Mat Byte))
  | [], _, _, _, shown => some shown
  | input_frame :: rest, grayscale_frame, sobel_frame, k, shown =>
    if input_frame.rows = 0 ∨ input_frame.cols = 0 then some shown
    else
      match step input_frame grayscale_frame sobel_frame with
      | none => none
      | some (gray, sobel) =>
        if wait_key k ≥ 0 then some (shown ++ [sobel])
        else frame_loop step wait_key rest gray sobel (k + 1) (shown ++ [sobel])

namespace Naive

/-- The two calls `get_grayscale(input_frame, graysacle_frame)` and
`get_sobel(graysacle_frame, sobel_frame)` of the frame loop; the result is both
buffers after the calls. -/
def frame_step (input_frame : Mat Vec3b) (grayscale_frame sobel_frame : Mat Byte) :
    Option (Mat Byte × Mat Byte) :=
  (get_grayscale input_frame grayscale_frame).bind fun gray =>
    (get_sobel gray sobel_frame).map fun sobel => (gray, sobel)

/-- Embedding of `main` of `NaiveSobel.cpp`: `parse_args` first, then the source is
opened, the buffers are dimensioned and the frames are processed and shown. -/
def main (world : World) (argc : Int) (argv : Nat → String) : Option Run :=
  match parse_args argc argv { in_vid_filename := "" } with
  | Except.error e =>
    some { printed := [e.message], opened := [], shown := [], status := e.status }
  | Except.ok fname_info =>
    match world.open_video fname_info.in_vid_filename with
    | none =>
      some { printed := ["Failed to open video capturer\n"],
             opened := [fname_info.in_vid_filename], shown := [], status := 1 }
    | some video =>
      (frame_loop frame_step world.wait_key video.frames
          (main_buffers video.width video.height).1 (main_buffers video.width video.height).2
          0 []).map
        fun shown =>
          { printed := [], opened := [fname_info.in_vid_filename], shown := shown, status := 0 }

end Naive

namespace Threaded

/-- Embedding of `main` of `Sobel.cpp`: as in `NaiveSobel.cpp`, with
`generate_image` as the processing of one frame. -/
def main (world : World) (argc : Int) (argv : Nat → String) : Option Run :=
  match Naive.parse_args argc argv { in_vid_filename := "" } with
  | Except.error e =>
    some { printed := [e.message], opened := [], shown := [], status := e.status }
  | Except.ok fname_info =>
    match world.open_video fname_info.in_vid_filename with
    | none =>
      some { printed := ["Failed to open video capturer\n"],
             opened := [fname_info.in_vid_filename], shown := [], status := 1 }
    | some video =>
      (frame_loop generate_image world.wait_key video.frames
          (Naive.main_buffers video.width video.height).1
          (Naive.main_buffers video.width video.height).2 0 []).map
        fun shown =>
          { printed := [], opened := [fname_info.in_vid_filename], shown := shown, status := 0 }

end Threaded

/-! ## Concrete frames -/

/-- The luminance frame of `width × height` samples all equal to `c`. -/
def flat_frame (c : Byte) (width height : Nat) : Mat Byte :=
  { rows := height, cols := width, data := fun _ _ => c }

/-- The luminance frame with a hard vertical boundary at column `b`: `0` in the
columns left of `b`, `255` from column `b` on. -/
def step_frame (b width height : Nat) : Mat Byte :=
  { rows := height, cols := width, data := fun _ col => if col < b then 0 else 255 }

/-- The 5×5 colour frame that is mid-gray `(128,128,128)` except for the bright
column `(255,255,255)` at `x = 2`. -/
def line_frame : Mat Vec3b :=
  { rows := 5, cols := 5, data := fun _ col => if col = 2 then fun _ => 255 else fun _ => 128 }

/-- The sample read at `(y, x)` from the edge frame that the Frame Convolver
produces for `line_frame` on the zero-initialised buffers of `main`. -/
def line_edge (y x : Int) : Option Byte :=
  (Naive.process_frame line_frame (Mat.zeros 5 5) (Mat.zeros 3 3)).bind fun out => out.at? y x

/-- The 3×3 colour frame whose left column is black and whose other two columns
are white. -/
def edge_frame : Mat Vec3b :=
  { rows := 3, cols := 3, data := fun _ col => if col = 0 then fun _ => 0 else fun _ => 255 }

/-- The 3×3 luminance frame with the level `10` in column 0 and `200` in columns
1 and 2. -/
def soft_step_frame : Mat Byte :=
  { rows := 3, cols := 3, data := fun _ col => if col < 1 then 10 else 200 }

/-- The 2×2 colour frame that is white everywhere. -/
def white_frame : Mat Vec3b :=
  { rows := 2, cols := 2, data := fun _ _ => fun _ => 255 }

/-- A world with the single video `clip.avi` of one 3×3 frame, `edge_frame`, and
no key ever pressed. -/
def one_frame_world : World :=
  { open_video := fun name =>
      if name = "clip.avi" then some { width := 3, height := 3, frames := [edge_frame] }
      else none
    wait_key := fun _ => -1 }

/-- The argument vector `prog clip.avi`. -/
def one_frame_argv : Nat → String := fun k => if k = 1 then "clip.avi" else "prog"

/-! ## Reference formulas -/

/-- The luminance frame of a colour frame: `get_pixel_grayscale` of the red
(channel 2), green (channel 1) and blue (channel 0) samples of every pixel. -/
def luminance_of (input_frame : Mat Vec3b) : Mat Byte :=
  { rows := input_frame.rows, cols := input_frame.cols,
    data := fun r c =>
      get_pixel_grayscale (input_frame.data r c 2) (input_frame.data r c 1)
        (input_frame.data r c 0) }

/-- The transposed frame: rows and columns exchanged. -/
def Mat.transpose {α : Type} (m : Mat α) : Mat α :=
  { rows := m.cols, cols := m.rows, data := fun r c => m.data c r }

/-- The photometric inverse `255 - L` of a luminance frame. -/
def invert_frame (g : Mat Byte) : Mat Byte :=
  { g with data := fun r c => toUInt8 (255 - ((g.data r c).val : Int)) }

/-- The luminance frame `L + c`, every sample stored back as a byte. -/
def shift_frame (g : Mat Byte) (c : Int) : Mat Byte :=
  { g with data := fun r k => toUInt8 (((g.data r k).val : Int) + c) }

/-- The inner-loop body of the evaluator in the standard orientation: the same
read and the same fixed-width updates as `sobel_accumulate`, the kernels indexed
`kern[j][i]` (row offset first). -/
def sobel_accumulate_standard (grayscale_frame : Mat Byte) (grayscale_x grayscale_y : Int)
    (j i : Nat) (grad : Int × Int) : Option (Int × Int) :=
  (grayscale_frame.at? (grayscale_y + j - 1) (grayscale_x + i - 1)).map
    fun pixel_grayscale =>
      (toInt16 (grad.1 + (pixel_grayscale.val : Int) * kern_at x_kern j i),
       toInt16 (grad.2 + (pixel_grayscale.val : Int) * kern_at y_kern j i))

/-- The evaluator in the standard Sobel orientation: `get_pixel_sobel` with the
kernels indexed `kern[j][i]`. -/
def get_pixel_sobel_standard (x y : Int) (grayscale_frame : Mat Byte) : Option Byte :=
  let grayscale_x := x + 1
  let grayscale_y := y + 1
  (forLoop 3 (fun j grad =>
      forLoop 3 (fun i grad =>
        sobel_accumulate_standard grayscale_frame grayscale_x grayscale_y j i grad) grad)
    (0, 0)).map sobel_combine

/-- Membership of column index `c` in the half-open share
`[bottom_row_index, bottom_row_index + rows_to_read)` of a worker. -/
def in_share (arg : Threaded.ThreadArgument) (c : Int) : Prop :=
  arg.bottom_row_index ≤ c ∧ c < arg.bottom_row_index + arg.rows_to_read

/-- Luminance sample at integer coordinates, as an unbounded integer. -/
def lum (grayscale_frame : Mat Byte) (row col : Int) : Int :=
  ((grayscale_frame.data row.toNat col.toNat).val : Int)

/-- Luminance sample at natural coordinates, as an unbounded integer. -/
def sample (grayscale_frame : Mat Byte) (row col : Nat) : Int :=
  ((grayscale_frame.data row col).val : Int)

/-- The gradient of the formula: the exact integer sum over `i, j ∈ {0,1,2}` of
`luminance[y+1 + j - 1][x+1 + i - 1] * kern[i][j]`. -/
def gradient_exact (kern : List (List Int)) (grayscale_frame : Mat Byte) (x y : Int) : Int :=
  ∑ i ∈ Finset.range 3, ∑ j ∈ Finset.range 3,
    lum grayscale_frame (y + 1 + (j : Int) - 1) (x + 1 + (i : Int) - 1) * kern_at kern i j

/-- The exact integer sum of the first `n` terms of the gradient, in the order in
which `get_pixel_sobel` adds them (term `k` has `j = k / 3`, `i = k % 3`). -/
def steps_exact (kern : List (List Int)) (grayscale_frame : Mat Byte) (x y : Int)
    (n : Nat) : Int :=
  ∑ k ∈ Finset.range n,
    lum grayscale_frame (y + 1 + ((k / 3 : Nat) : Int) - 1) (x + 1 + ((k % 3 : Nat) : Int) - 1)
      * kern_at kern (k % 3) (k / 3)

/-- Ten thousand times the weighted sum with the weights taken as exact decimals:
`2126*R + 7152*G + 722*B`. -/
def luma_exact_e4 (red green blue : Byte) : Nat :=
  2126 * red.val + 7152 * green.val + 722 * blue.val

/-- The contract of the Grayscale Reducer as worded: the exact weighted sum
rounded to the nearest integer, then clamped to 255. -/
def luma_rounded (red green blue : Byte) : Nat :=
  min 255 ((luma_exact_e4 red green blue + 5000) / 10000)

/-- The 62 gray levels `v` whose double sum `0.2126*v + 0.7152*v + 0.0722*v` falls
just below `v`. -/
def gray_levels_lowered : List Nat :=
  [5, 7, 10, 13, 14, 20, 26, 28, 40, 43, 49, 51, 52, 56, 59, 63, 80, 83, 86, 89, 95, 98,
   101, 102, 104, 105, 107, 112, 115, 118, 126, 157, 160, 166, 172, 178, 179, 185, 190,
   191, 193, 196, 199, 202, 204, 205, 208, 210, 211, 214, 221, 224, 227, 230, 233, 236,
   239, 245, 249, 251, 252, 255]

/-- The accumulators of `get_pixel_sobel_standard` after the first `n` iterations
of its loop nest, iteration `k` being `j = k / 3`, `i = k % 3`. -/
def sobel_steps_standard (x y : Int) (grayscale_frame : Mat Byte) (n : Nat) :
    Option (Int × Int) :=
  forLoop n (fun k grad =>
    sobel_accumulate_standard grayscale_frame (x + 1) (y + 1) (k / 3) (k % 3) grad) (0, 0)

/-! ## Basic facts -/

theorem toInt16_of_range {v : Int} (h₁ : -32768 ≤ v) (h₂ : v < 32768) : toInt16 v = v := by
  unfold toInt16; omega

theorem toUInt16_of_range {v : Int} (h₁ : 0 ≤ v) (h₂ : v < 65536) : toUInt16 v = v := by
  unfold toUInt16; omega

theorem toUInt8_val {v : Int} (h₁ : 0 ≤ v) (h₂ : v < 256) : ((toUInt8 v).val : Int) = v := by
  unfold toUInt8
  have h : (v % 256).toNat = v.toNat := by congr 1; omega
  rw [h]
  show ((v.toNat % 256 : Nat) : Int) = v
  omega

theorem lum_nonneg (g : Mat Byte) (r c : Int) : 0 ≤ lum g r c := by
  unfold lum; omega

theorem lum_lt (g : Mat Byte) (r c : Int) : lum g r c < 256 := by
  unfold lum; omega

theorem Mat.at?_of_inside {α : Type} (m : Mat α) {row col : Int}
    (hr₀ : 0 ≤ row) (hr₁ : row < m.rows) (hc₀ : 0 ≤ col) (hc₁ : col < m.cols) :
    m.at? row col = some (m.data row.toNat col.toNat) := by
  unfold Mat.at?
  rw [if_pos ⟨hr₀, hr₁, hc₀, hc₁⟩]

theorem sobel_accumulate_inside (g : Mat Byte) (gx gy : Int) (j i : Nat) (grad : Int × Int)
    (hr₀ : 0 ≤ gy + j - 1) (hr₁ : gy + j - 1 < g.rows)
    (hc₀ : 0 ≤ gx + i - 1) (hc₁ : gx + i - 1 < g.cols) :
    sobel_accumulate g gx gy j i grad =
      some (toInt16 (grad.1 + lum g (gy + j - 1) (gx + i - 1) * kern_at x_kern i j),
            toInt16 (grad.2 + lum g (gy + j - 1) (gx + i - 1) * kern_at y_kern i j)) := by
  unfold sobel_accumulate
  rw [Mat.at?_of_inside g hr₀ hr₁ hc₀ hc₁]
  rfl

theorem some_bind_eq {α β : Type} (a : α) (f : α → Option β) : (some a).bind f = f a := rfl

theorem get_pixel_sobel_eq_steps (x y : Int) (g : Mat Byte) :
    get_pixel_sobel x y g = (sobel_steps x y g 9).map sobel_combine := by
  unfold get_pixel_sobel sobel_steps
  simp only [forLoop, some_bind_eq, Option.bind_assoc]

theorem steps_exact_succ (kern : List (List Int)) (g : Mat Byte) (x y : Int) (n : Nat) :
    steps_exact kern g x y (n + 1) = steps_exact kern g x y n +
      lum g (y + 1 + ((n / 3 : Nat) : Int) - 1) (x + 1 + ((n % 3 : Nat) : Int) - 1)
        * kern_at kern (n % 3) (n / 3) := by
  unfold steps_exact
  rw [Finset.sum_range_succ]

theorem steps_exact_bound (g : Mat Byte) (x y : Int) (n : Nat) (hn : n ≤ 9) :
    (-1020 ≤ steps_exact x_kern g x y n ∧ steps_exact x_kern g x y n ≤ 1020) ∧
    (-1020 ≤ steps_exact y_kern g x y n ∧ steps_exact y_kern g x y n ≤ 1020) := by
  have h := fun (j i : Nat) =>
    And.intro (lum_nonneg g (y + 1 + (j : Int) - 1) (x + 1 + (i : Int) - 1))
      (lum_lt g (y + 1 + (j : Int) - 1) (x + 1 + (i : Int) - 1))
  have h00 := h 0 0
  have h01 := h 0 1
  have h02 := h 0 2
  have h10 := h 1 0
  have h11 := h 1 1
  have h12 := h 1 2
  have h20 := h 2 0
  have h21 := h 2 1
  have h22 := h 2 2
  clear h
  interval_cases n <;>
    simp only [steps_exact, Finset.sum_range_succ, Finset.sum_range_zero, kern_at, x_kern,
      y_kern, List.getD_cons_zero, List.getD_cons_succ, Nat.reduceDiv, Nat.reduceMod,
      Nat.cast_zero, Nat.cast_one, Nat.cast_ofNat] at * <;>
    omega

theorem sobel_steps_succ (x y : Int) (g : Mat Byte) (n : Nat) :
    sobel_steps x y g (n + 1) = (sobel_steps x y g n).bind
      (sobel_accumulate g (x + 1) (y + 1) (n / 3) (n % 3)) := rfl

theorem sobel_steps_eq_exact (g : Mat Byte) (x y : Int)
    (hx₀ : 0 ≤ x) (hx₁ : x + 2 < g.cols) (hy₀ : 0 ≤ y) (hy₁ : y + 2 < g.rows)
    (n : Nat) (hn : n ≤ 9) :
    sobel_steps x y g n =
      some (steps_exact x_kern g x y n, steps_exact y_kern g x y n) := by
  induction n with
  | zero => rfl
  | succ n ih =>
    have hj : n / 3 ≤ 2 := by omega
    have hi : n % 3 ≤ 2 := by omega
    rw [sobel_steps_succ, ih (by omega), some_bind_eq,
      sobel_accumulate_inside g (x + 1) (y + 1) (n / 3) (n % 3) _
        (by omega) (by omega) (by omega) (by omega)]
    have hb := steps_exact_bound g x y (n + 1) hn
    rw [steps_exact_succ, steps_exact_succ] at hb
    rw [steps_exact_succ, steps_exact_succ,
      toInt16_of_range (by omega) (by omega), toInt16_of_range (by omega) (by omega)]

theorem gradient_exact_eq_steps (kern : List (List Int)) (g : Mat Byte) (x y : Int) :
    gradient_exact kern g x y = steps_exact kern g x y 9 := by
  simp only [gradient_exact, steps_exact, Finset.sum_range_succ, Finset.sum_range_zero,
    Nat.reduceDiv, Nat.reduceMod, Nat.cast_zero, Nat.cast_one, Nat.cast_ofNat]
  ring

theorem sobel_mag_eq_abs (grad : Int) (h₀ : -1020 ≤ grad) (h₁ : grad ≤ 1020) :
    sobel_mag grad = |grad| := by
  have hm : (if grad < 0 then grad * -1 else grad) = |grad| := by
    split_ifs with h
    · rw [abs_of_neg h]; ring
    · rw [abs_of_nonneg (by omega)]
  have a₁ : |grad| ≤ 1020 := abs_le.mpr ⟨h₀, h₁⟩
  unfold sobel_mag
  rw [hm, toUInt16_of_range (abs_nonneg grad) (by omega)]

theorem sobel_combine_val (gx gy : Int) (hx₀ : -1020 ≤ gx) (hx₁ : gx ≤ 1020)
    (hy₀ : -1020 ≤ gy) (hy₁ : gy ≤ 1020) :
    ((sobel_combine (gx, gy)).val : Int) = min 255 (|gx| + |gy|) := by
  have ax₀ : 0 ≤ |gx| := abs_nonneg gx
  have ay₀ : 0 ≤ |gy| := abs_nonneg gy
  have ax₁ : |gx| ≤ 1020 := abs_le.mpr ⟨hx₀, hx₁⟩
  have ay₁ : |gy| ≤ 1020 := abs_le.mpr ⟨hy₀, hy₁⟩
  unfold sobel_combine
  simp only [sobel_mag_eq_abs gx hx₀ hx₁, sobel_mag_eq_abs gy hy₀ hy₁]
  rw [toUInt16_of_range (by omega) (by omega)]
  unfold UINT8_MAX
  split_ifs with h
  · rw [toUInt8_val (by omega) (by omega)]; omega
  · rw [toUInt8_val (by omega) (by omega)]; omega

/-! ### Whole-frame loops -/

theorem Mat.setAt_of_inside {α : Type} (m : Mat α) (y x : Nat) (a : α)
    (hy : y < m.rows) (hx : x < m.cols) :
    m.setAt y x a =
      some ⟨m.rows, m.cols, fun r c => if r = y ∧ c = x then a else m.data r c⟩ := by
  unfold Mat.setAt
  rw [if_pos ⟨by omega, by omega, by omega, by omega⟩]
  simp only [Int.toNat_ofNat]

theorem forLoop_row_fill {α : Type} (body : Nat → Mat α → Option (Mat α)) (v : Nat → α)
    (y n : Nat) (m : Mat α) (hy : y < m.rows) (hn : n ≤ m.cols)
    (hbody : ∀ x, x < n → ∀ frame : Mat α, body x frame = frame.setAt y x (v x)) :
    forLoop n body m =
      some ⟨m.rows, m.cols, fun r c => if r = y ∧ c < n then v c else m.data r c⟩ := by
  induction n with
  | zero => simp [forLoop]
  | succ n ih =>
    rw [forLoop, ih (by omega) (fun x hx => hbody x (by omega)), some_bind_eq,
      hbody n (by omega)]
    refine (Mat.setAt_of_inside _ y n (v n) ?_ ?_).trans ?_
    · exact hy
    · exact Nat.lt_of_succ_le hn
    congr 2
    funext r c
    dsimp only
    by_cases h₁ : r = y ∧ c = n
    · rw [if_pos h₁, if_pos ⟨h₁.1, by omega⟩, h₁.2]
    · rw [if_neg h₁]
      by_cases h₂ : r = y ∧ c < n
      · rw [if_pos h₂, if_pos ⟨h₂.1, by omega⟩]
      · rw [if_neg h₂, if_neg (by omega)]

theorem forLoop_grid_fill {α : Type} (body : Nat → Nat → Mat α → Option (Mat α))
    (v : Nat → Nat → α) (k n : Nat) (m : Mat α) (hk : k ≤ m.rows) (hn : n ≤ m.cols)
    (hbody : ∀ y, y < k → ∀ x, x < n → ∀ frame : Mat α,
      body y x frame = frame.setAt y x (v y x)) :
    forLoop k (fun y frame => forLoop n (body y) frame) m =
      some ⟨m.rows, m.cols, fun r c => if r < k ∧ c < n then v r c else m.data r c⟩ := by
  induction k with
  | zero => simp [forLoop]
  | succ k ih =>
    rw [forLoop, ih (by omega) (fun y hy => hbody y (by omega)), some_bind_eq]
    refine (forLoop_row_fill (body k) (v k) k n _ ?_ ?_ (hbody k (by omega))).trans ?_
    · exact Nat.lt_of_succ_le hk
    · exact hn
    congr 2
    funext r c
    dsimp only
    by_cases h₁ : r = k ∧ c < n
    · rw [if_pos h₁, if_pos ⟨by omega, h₁.2⟩, h₁.1]
    · rw [if_neg h₁]
      by_cases h₂ : r < k ∧ c < n
      · rw [if_pos h₂, if_pos ⟨by omega, h₂.2⟩]
      · rw [if_neg h₂, if_neg (by omega)]

theorem lum_window (g : Mat Byte) (x y j i : Nat) :
    lum g ((y : Int) + 1 + (j : Int) - 1) ((x : Int) + 1 + (i : Int) - 1) =
      sample g (y + j) (x + i) := by
  unfold lum sample
  have h₁ : ((y : Int) + 1 + (j : Int) - 1).toNat = y + j := by omega
  have h₂ : ((x : Int) + 1 + (i : Int) - 1).toNat = x + i := by omega
  rw [h₁, h₂]

/-- Closed form of the accumulator `x_grad`: bottom row minus top row of the window. -/
theorem steps_exact_x_kern_nine (g : Mat Byte) (x y : Nat) :
    steps_exact x_kern g x y 9 =
      (sample g (y + 2) x + 2 * sample g (y + 2) (x + 1) + sample g (y + 2) (x + 2))
        - (sample g y x + 2 * sample g y (x + 1) + sample g y (x + 2)) := by
  simp only [steps_exact, Finset.sum_range_succ, Finset.sum_range_zero, lum_window, kern_at,
    x_kern, List.getD_cons_zero, List.getD_cons_succ, Nat.reduceDiv, Nat.reduceMod,
    Nat.add_zero]
  ring

/-- Closed form of the accumulator `y_grad`: left column minus right column of the window. -/
theorem steps_exact_y_kern_nine (g : Mat Byte) (x y : Nat) :
    steps_exact y_kern g x y 9 =
      (sample g y x + 2 * sample g (y + 1) x + sample g (y + 2) x)
        - (sample g y (x + 2) + 2 * sample g (y + 1) (x + 2) + sample g (y + 2) (x + 2)) := by
  simp only [steps_exact, Finset.sum_range_succ, Finset.sum_range_zero, lum_window, kern_at,
    y_kern, List.getD_cons_zero, List.getD_cons_succ, Nat.reduceDiv, Nat.reduceMod,
    Nat.add_zero]
  ring

theorem get_pixel_sobel_inside (g : Mat Byte) (x y : Nat)
    (hx : x + 2 < g.cols) (hy : y + 2 < g.rows) :
    get_pixel_sobel x y g =
      some (sobel_combine (steps_exact x_kern g x y 9, steps_exact y_kern g x y 9)) := by
  rw [get_pixel_sobel_eq_steps,
    sobel_steps_eq_exact g x y (by omega) (by omega) (by omega) (by omega) 9 (le_refl 9)]
  rfl

/-- Closed form of `get_sobel` on a luminance frame that is at least two rows and
two columns larger than the Sobel frame. -/
theorem get_sobel_closed_form (g s : Mat Byte) (hc : s.cols + 2 ≤ g.cols)
    (hr : s.rows + 2 ≤ g.rows) :
    Naive.get_sobel g s = some ⟨s.rows, s.cols, fun r c =>
      if r < s.rows ∧ c < s.cols then
        sobel_combine (steps_exact x_kern g c r 9, steps_exact y_kern g c r 9)
      else s.data r c⟩ := by
  unfold Naive.get_sobel
  refine forLoop_grid_fill
    (fun y x frame => (get_pixel_sobel x y g).bind fun v => frame.setAt y x v)
    (fun r c => sobel_combine (steps_exact x_kern g c r 9, steps_exact y_kern g c r 9))
    s.rows s.cols s (le_refl _) (le_refl _) ?_
  intro y hy x hx frame
  dsimp only
  rw [get_pixel_sobel_inside g x y (by omega) (by omega), some_bind_eq]

/-! ### binary64 rounding error -/

theorem ilog2Aux_le (fuel n k : Nat) (h : n < 2 ^ (k + 1)) : ilog2Aux fuel n ≤ k := by
  induction fuel generalizing n k with
  | zero => simp [ilog2Aux]
  | succ fuel ih =>
    unfold ilog2Aux
    split_ifs with h2
    · omega
    · cases k with
      | zero => omega
      | succ k =>
        have hh : n / 2 < 2 ^ (k + 1) := by
          rw [Nat.div_lt_iff_lt_mul (by norm_num)]
          rw [pow_succ] at h
          exact h
        have := ih (n / 2) k hh
        omega

/-- Rounding to 53 bits moves a value below `2^64` by at most `2^10` units. -/
theorem round53_error (n : Nat) (h : n < 2 ^ 64) :
    round53 n ≤ n + 1024 ∧ n ≤ round53 n + 1024 := by
  have hs : ilog2 n - 52 ≤ 11 := by
    have := ilog2Aux_le n n 63 h
    unfold ilog2
    omega
  unfold round53
  dsimp only
  generalize ilog2 n - 52 = s at hs ⊢
  have hp₁ : 0 < 2 ^ s := Nat.two_pow_pos s
  have hp₂ : 2 ^ s ≤ 2 ^ 11 := Nat.pow_le_pow_right (by norm_num) hs
  generalize 2 ^ s = p at hp₁ hp₂ ⊢
  have hdm := Nat.div_add_mod' n p
  have hr := Nat.mod_lt n hp₁
  generalize n / p = q at hdm ⊢
  generalize n % p = r at hdm hr ⊢
  have hq : (q + 1) * p = q * p + p := by ring
  rw [hq]
  norm_num at hp₂
  split_ifs <;> omega

theorem LIT_values : LIT_0_2126 = 15319444492463480 ∧ LIT_0_7152 = 51535591255926056 ∧
    LIT_0_0722 = 5202558289538397 := by decide

/-- The double sum differs from the sum that uses the rounded literals exactly by
at most `5 * 2^10` units of `2^-56`. -/
theorem luma_double_error (R G B : Byte) :
    luma_double R G B ≤
        LIT_0_2126 * R.val + LIT_0_7152 * G.val + LIT_0_0722 * B.val + 5120 ∧
      LIT_0_2126 * R.val + LIT_0_7152 * G.val + LIT_0_0722 * B.val ≤
        luma_double R G B + 5120 := by
  obtain ⟨l₁, l₂, l₃⟩ := LIT_values
  have hR := R.isLt
  have hG := G.isLt
  have hB := B.isLt
  unfold luma_double dadd dmul
  rw [l₁, l₂, l₃]
  have e₁ := round53_error (15319444492463480 * R.val) (by norm_num; omega)
  have e₂ := round53_error (51535591255926056 * G.val) (by norm_num; omega)
  have e₃ := round53_error (5202558289538397 * B.val) (by norm_num; omega)
  generalize round53 (15319444492463480 * R.val) = p₁ at e₁ ⊢
  generalize round53 (51535591255926056 * G.val) = p₂ at e₂ ⊢
  generalize round53 (5202558289538397 * B.val) = p₃ at e₃ ⊢
  have e₄ := round53_error (p₁ + p₂) (by norm_num; omega)
  generalize round53 (p₁ + p₂) = s₁ at e₄ ⊢
  have e₅ := round53_error (s₁ + p₃) (by norm_num; omega)
  generalize round53 (s₁ + p₃) = s₂ at e₅ ⊢
  omega

/-- The truncated double is the floor of the exact weighted sum, or one less when
the exact weighted sum is an integer. -/
theorem dtrunc_luma_double (R G B : Byte) :
    dtrunc (luma_double R G B) ≤ luma_exact_e4 R G B / 10000 ∧
      luma_exact_e4 R G B / 10000 ≤ dtrunc (luma_double R G B) + 1 ∧
      (luma_exact_e4 R G B % 10000 = 0 ∨
        dtrunc (luma_double R G B) = luma_exact_e4 R G B / 10000) ∧
      dtrunc (luma_double R G B) ≤ 255 := by
  obtain ⟨l₁, l₂, l₃⟩ := LIT_values
  have hR := R.isLt
  have hG := G.isLt
  have hB := B.isLt
  have he := luma_double_error R G B
  rw [l₁, l₂, l₃] at he
  unfold dtrunc DBL_ONE luma_exact_e4
  generalize luma_double R G B = S at he ⊢
  norm_num
  omega

/-- The three literals are binary64 numbers (53-bit significands) and lie within
half a unit in the last place of the decimals `0.2126`, `0.7152`, `0.0722`. -/
theorem LIT_nearest :
    (2 ^ 52 ≤ LIT_0_2126 / 2 ∧ LIT_0_2126 / 2 < 2 ^ 53 ∧ LIT_0_2126 % 2 = 0 ∧
      |(LIT_0_2126 : Int) * 10000 - 2126 * 2 ^ 56| ≤ 1 * 10000) ∧
    (2 ^ 52 ≤ LIT_0_7152 / 8 ∧ LIT_0_7152 / 8 < 2 ^ 53 ∧ LIT_0_7152 % 8 = 0 ∧
      |(LIT_0_7152 : Int) * 10000 - 7152 * 2 ^ 56| ≤ 4 * 10000) ∧
    (2 ^ 52 ≤ LIT_0_0722 ∧ LIT_0_0722 < 2 ^ 53 ∧
      2 * |(LIT_0_0722 : Int) * 10000 - 722 * 2 ^ 56| ≤ 1 * 10000) := by
  decide

theorem pixel_grayscale_clamped_eq (R G B : Byte) :
    pixel_grayscale_clamped R G B = (dtrunc (luma_double R G B) : Int) := by
  have h := (dtrunc_luma_double R G B).2.2.2
  unfold pixel_grayscale_clamped UINT8_MAX
  dsimp only
  rw [toUInt16_of_range (by omega) (by omega), if_neg (by omega)]

theorem get_pixel_grayscale_val (R G B : Byte) :
    (get_pixel_grayscale R G B).val = dtrunc (luma_double R G B) := by
  have h := (dtrunc_luma_double R G B).2.2.2
  have e : ((get_pixel_grayscale R G B).val : Int) = (dtrunc (luma_double R G B) : Int) := by
    unfold get_pixel_grayscale
    rw [pixel_grayscale_clamped_eq, toUInt8_val (by omega) (by omega)]
  exact_mod_cast e

/-- The bound "at most one below the floor" is attained: the exact weighted sum of
`(5, 5, 5)` is `5`, the double sum is `4.999999999999999` and the result is `4`. -/
theorem get_pixel_grayscale_gray_five :
    get_pixel_grayscale 5 5 5 = 4 ∧ luma_exact_e4 5 5 5 = 5 * 10000 := by decide

/-! ### Scheduler arithmetic and small evaluations -/

theorem sobel_combine_zero : sobel_combine (0, 0) = 0 := by decide

theorem sobel_combine_step : sobel_combine (0, -1020) = 255 := by decide

/-- The workers of `generate_image` leave both buffers as they were. -/
theorem generate_image_leaves_buffers (input_frame : Mat Vec3b)
    (grayscale_frame sobel_frame : Mat Byte) :
    Threaded.generate_image input_frame grayscale_frame sobel_frame =
      some (grayscale_frame, sobel_frame) := rfl

theorem toSizeT_natCast (n : Nat) (h : n < 18446744073709551616) : toSizeT (n : Int) = n := by
  unfold toSizeT; omega

theorem toInt32_of_range {v : Int} (h₁ : -2147483648 ≤ v) (h₂ : v < 2147483648) :
    toInt32 v = v := by
  unfold toInt32; omega

theorem thread_argument_eq (w : Nat) (hw : w < 2147483648) (i : Nat) (hi : i < 4) :
    Threaded.thread_argument w i =
      { bottom_row_index := ((i * (w / 4) : Nat) : Int)
        rows_to_read := if i = 3 then w - 3 * (w / 4) else w / 4 } := by
  have e₁ : toSizeT ((w : Int) / 4) = w / 4 := by
    have h : (w : Int) / 4 = ((w / 4 : Nat) : Int) := by omega
    rw [h, toSizeT_natCast _ (by omega)]
  have e₂ : toSizeT (((w / 4 : Nat) : Int) * (4 - 1)) = 3 * (w / 4) := by
    have h : ((w / 4 : Nat) : Int) * (4 - 1) = ((3 * (w / 4) : Nat) : Int) := by omega
    rw [h, toSizeT_natCast _ (by omega)]
  have e₃ : toSizeT ((w : Int) - ((3 * (w / 4) : Nat) : Int)) = w - 3 * (w / 4) := by
    have h : (w : Int) - ((3 * (w / 4) : Nat) : Int) = ((w - 3 * (w / 4) : Nat) : Int) := by
      omega
    rw [h, toSizeT_natCast _ (by omega)]
  have e₄ : toInt32 (toSizeT ((i : Int) * ((w / 4 : Nat) : Int))) = ((i * (w / 4) : Nat) : Int) := by
    have h : (i : Int) * ((w / 4 : Nat) : Int) = ((i * (w / 4) : Nat) : Int) := by
      push_cast; ring
    have hb : i * (w / 4) < 2147483648 := by
      interval_cases i <;> omega
    rw [h, toSizeT_natCast _ (by omega), toInt32_of_range (by omega) (by omega)]
  simp only [Threaded.thread_argument, Threaded.NUM_THREADS, Nat.cast_ofNat, e₁, e₂, e₃, e₄]

/-! ### Grayscale stage and dependence on the grid only -/

/-- Closed form of `get_grayscale` on a buffer at least as large as the input. -/
theorem get_grayscale_closed_form (input : Mat Vec3b) (gray : Mat Byte)
    (hr : input.rows ≤ gray.rows) (hc : input.cols ≤ gray.cols) :
    Naive.get_grayscale input gray = some ⟨gray.rows, gray.cols, fun r c =>
      if r < input.rows ∧ c < input.cols then (luminance_of input).data r c
      else gray.data r c⟩ := by
  unfold Naive.get_grayscale
  refine forLoop_grid_fill
    (fun y x frame => (input.at? y x).bind fun input_pixel =>
      frame.setAt y x
        (get_pixel_grayscale (input_pixel 2) (input_pixel 1) (input_pixel 0)))
    (fun r c => (luminance_of input).data r c)
    input.rows input.cols gray hr hc ?_
  intro y hy x hx frame
  dsimp only
  rw [Mat.at?_of_inside input (by omega) (by omega) (by omega) (by omega), some_bind_eq,
    Int.toNat_ofNat, Int.toNat_ofNat]
  rfl

/-- Inside windows are evaluated from the samples of the grid alone. -/
theorem get_pixel_sobel_congr (g g' : Mat Byte) (x y : Nat)
    (hx : x + 2 < g.cols) (hy : y + 2 < g.rows) (hrows : g'.rows = g.rows)
    (hcols : g'.cols = g.cols)
    (hdata : ∀ r c : Nat, r < g.rows → c < g.cols → g'.data r c = g.data r c) :
    get_pixel_sobel x y g' = get_pixel_sobel x y g := by
  rw [get_pixel_sobel_inside g x y hx hy,
    get_pixel_sobel_inside g' x y (by omega) (by omega),
    steps_exact_x_kern_nine, steps_exact_y_kern_nine, steps_exact_x_kern_nine,
    steps_exact_y_kern_nine]
  have e : ∀ r c : Nat, r < g.rows → c < g.cols → sample g' r c = sample g r c := by
    intro r c h₁ h₂
    unfold sample
    rw [hdata r c h₁ h₂]
  rw [e y x (by omega) (by omega), e y (x + 1) (by omega) (by omega),
    e y (x + 2) (by omega) (by omega), e (y + 1) x (by omega) (by omega),
    e (y + 1) (x + 2) (by omega) (by omega), e (y + 2) x (by omega) (by omega),
    e (y + 2) (x + 1) (by omega) (by omega), e (y + 2) (x + 2) (by omega) (by omega)]

/-- The stage functions of `Sobel.cpp` are the whole-frame loops of `NaiveSobel.cpp`,
whatever share they are given. -/
theorem threaded_stage_eq_naive (input : Mat Vec3b) (gray sobel : Mat Byte)
    (lower_row : Int) (quantum : Nat) :
    Threaded.get_grayscale input gray lower_row quantum = Naive.get_grayscale input gray ∧
    Threaded.get_sobel gray sobel lower_row quantum = Naive.get_sobel gray sobel :=
  ⟨rfl, rfl⟩

/-! ### Orientation of the kernels -/

theorem kern_at_transpose (i j : Nat) (hi : i < 3) (hj : j < 3) :
    kern_at x_kern j i = -kern_at y_kern i j ∧ kern_at y_kern j i = -kern_at x_kern i j := by
  interval_cases i <;> interval_cases j <;> decide

theorem sobel_accumulate_standard_inside (g : Mat Byte) (gx gy : Int) (j i : Nat)
    (grad : Int × Int)
    (hr₀ : 0 ≤ gy + j - 1) (hr₁ : gy + j - 1 < g.rows)
    (hc₀ : 0 ≤ gx + i - 1) (hc₁ : gx + i - 1 < g.cols) :
    sobel_accumulate_standard g gx gy j i grad =
      some (toInt16 (grad.1 + lum g (gy + j - 1) (gx + i - 1) * kern_at x_kern j i),
            toInt16 (grad.2 + lum g (gy + j - 1) (gx + i - 1) * kern_at y_kern j i)) := by
  unfold sobel_accumulate_standard
  rw [Mat.at?_of_inside g hr₀ hr₁ hc₀ hc₁]
  rfl

theorem get_pixel_sobel_standard_eq_steps (x y : Int) (g : Mat Byte) :
    get_pixel_sobel_standard x y g = (sobel_steps_standard x y g 9).map sobel_combine := by
  unfold get_pixel_sobel_standard sobel_steps_standard
  simp only [forLoop, some_bind_eq, Option.bind_assoc]

theorem sobel_steps_standard_succ (x y : Int) (g : Mat Byte) (n : Nat) :
    sobel_steps_standard x y g (n + 1) = (sobel_steps_standard x y g n).bind
      (sobel_accumulate_standard g (x + 1) (y + 1) (n / 3) (n % 3)) := rfl

/-- In the standard orientation the two accumulators hold the negated
accumulators of `get_pixel_sobel`, with the roles exchanged. -/
theorem sobel_steps_standard_eq_exact (g : Mat Byte) (x y : Int)
    (hx₀ : 0 ≤ x) (hx₁ : x + 2 < g.cols) (hy₀ : 0 ≤ y) (hy₁ : y + 2 < g.rows)
    (n : Nat) (hn : n ≤ 9) :
    sobel_steps_standard x y g n =
      some (-steps_exact y_kern g x y n, -steps_exact x_kern g x y n) := by
  induction n with
  | zero => rfl
  | succ n ih =>
    have hj : n / 3 < 3 := by omega
    have hi : n % 3 < 3 := by omega
    have hk := kern_at_transpose (n % 3) (n / 3) hi hj
    rw [sobel_steps_standard_succ, ih (by omega), some_bind_eq,
      sobel_accumulate_standard_inside g (x + 1) (y + 1) (n / 3) (n % 3) _
        (by omega) (by omega) (by omega) (by omega), hk.1, hk.2]
    have hb := steps_exact_bound g x y (n + 1) hn
    rw [steps_exact_succ, steps_exact_succ] at hb
    rw [steps_exact_succ, steps_exact_succ, mul_neg, mul_neg, neg_add, neg_add]
    dsimp only
    generalize lum g (y + 1 + ((n / 3 : Nat) : Int) - 1) (x + 1 + ((n % 3 : Nat) : Int) - 1)
      * kern_at x_kern (n % 3) (n / 3) = tx at hb ⊢
    generalize lum g (y + 1 + ((n / 3 : Nat) : Int) - 1) (x + 1 + ((n % 3 : Nat) : Int) - 1)
      * kern_at y_kern (n % 3) (n / 3) = ty at hb ⊢
    rw [toInt16_of_range (by omega) (by omega), toInt16_of_range (by omega) (by omega)]

theorem sobel_combine_neg_swap (a b : Int) (ha₀ : -1020 ≤ a) (ha₁ : a ≤ 1020)
    (hb₀ : -1020 ≤ b) (hb₁ : b ≤ 1020) :
    sobel_combine (-b, -a) = sobel_combine (a, b) := by
  have h₁ := sobel_combine_val (-b) (-a) (by omega) (by omega) (by omega) (by omega)
  have h₂ := sobel_combine_val a b ha₀ ha₁ hb₀ hb₁
  rw [abs_neg, abs_neg, add_comm] at h₁
  exact Fin.ext (by exact_mod_cast h₁.trans h₂.symm)

theorem sobel_combine_neg (a b : Int) (ha₀ : -1020 ≤ a) (ha₁ : a ≤ 1020)
    (hb₀ : -1020 ≤ b) (hb₁ : b ≤ 1020) :
    sobel_combine (-a, -b) = sobel_combine (a, b) := by
  have h₁ := sobel_combine_val (-a) (-b) (by omega) (by omega) (by omega) (by omega)
  have h₂ := sobel_combine_val a b ha₀ ha₁ hb₀ hb₁
  rw [abs_neg, abs_neg] at h₁
  exact Fin.ext (by exact_mod_cast h₁.trans h₂.symm)

/-- Closed form of the luminance samples of a transposed frame. -/
theorem sample_transpose (g : Mat Byte) (r c : Nat) :
    sample g.transpose r c = sample g c r := rfl

/-! ### Gray levels, inversion and shift -/

set_option maxRecDepth 100000 in
set_option maxHeartbeats 8000000 in
/-- The value of `get_pixel_grayscale` on each of the 256 neutral gray pixels. -/
theorem gray_level_table :
    ∀ v : Byte, (get_pixel_grayscale v v v).val =
      if v.val ∈ gray_levels_lowered then v.val - 1 else v.val := by
  decide

theorem sample_invert_frame (g : Mat Byte) (r c : Nat) :
    sample (invert_frame g) r c = 255 - sample g r c := by
  unfold sample invert_frame
  dsimp only
  rw [toUInt8_val (by omega) (by omega)]

theorem sample_shift_frame (g : Mat Byte) (c : Int) (r k : Nat)
    (h₀ : 0 ≤ sample g r k + c) (h₁ : sample g r k + c ≤ 255) :
    sample (shift_frame g c) r k = sample g r k + c := by
  unfold sample at h₀ h₁ ⊢
  unfold shift_frame
  dsimp only
  rw [toUInt8_val (by omega) (by omega)]

/-! ### One run of `main` -/

set_option maxRecDepth 100000 in
/-- With `prog clip.avi` on `one_frame_world` the program of `NaiveSobel.cpp` opens
`clip.avi`, shows one edge frame whose sample is `255`, prints nothing and returns
0; with no argument it exits with status 1 before opening anything. -/
theorem main_one_frame :
    (Naive.main one_frame_world 2 one_frame_argv).map
        (fun run => (run.printed, run.opened, run.shown.length, run.status,
          run.shown.map fun frame => frame.at? 0 0)) =
      some ([], ["clip.avi"], 1, 0, [some 255]) ∧
    (Naive.main one_frame_world 1 one_frame_argv).map
        (fun run => (run.printed, run.opened, run.shown.length, run.status)) =
      some (["Bad arguments, requires path to input video.\n"], [], 0, 1) := by
  refine ⟨?_, ?_⟩
  · rfl
  · decide

/-! ## Theorems -/

/-- C1: for every luminance frame and every output coordinate `(x, y)` whose 3×3
window lies inside the frame, `get_pixel_sobel` returns `min(255, |Gx| + |Gy|)`
for the exact integer gradients `Gx`, `Gy` of the formula, and its two `int16_t`
accumulators end up holding exactly `Gx` and `Gy`: no fixed-width store wraps. -/
theorem get_pixel_sobel_eq_formula (g : Mat Byte) (x y : Int)
    (hx₀ : 0 ≤ x) (hx₁ : x + 2 < g.cols) (hy₀ : 0 ≤ y) (hy₁ : y + 2 < g.rows) :
    (∃ b : Byte, get_pixel_sobel x y g = some b ∧
      (b.val : Int) =
        min 255 (|gradient_exact x_kern g x y| + |gradient_exact y_kern g x y|)) ∧
    sobel_steps x y g 9 =
      some (gradient_exact x_kern g x y, gradient_exact y_kern g x y) := by
  have hb := steps_exact_bound g x y 9 (le_refl 9)
  have hs := sobel_steps_eq_exact g x y hx₀ hx₁ hy₀ hy₁ 9 (le_refl 9)
  rw [gradient_exact_eq_steps, gradient_exact_eq_steps]
  refine ⟨⟨sobel_combine (steps_exact x_kern g x y 9, steps_exact y_kern g x y 9), ?_, ?_⟩,
    hs⟩
  · rw [get_pixel_sobel_eq_steps, hs]
    rfl
  · exact sobel_combine_val _ _ hb.1.1 hb.1.2 hb.2.1 hb.2.2

/-- C1 witness: the top-left output pixel of a 3×3 step frame. -/
theorem get_pixel_sobel_eq_formula_witness :
    (∃ b : Byte, get_pixel_sobel 0 0 (step_frame 1 3 3) = some b ∧
      (b.val : Int) = min 255 (|gradient_exact x_kern (step_frame 1 3 3) 0 0|
        + |gradient_exact y_kern (step_frame 1 3 3) 0 0|)) ∧
    sobel_steps 0 0 (step_frame 1 3 3) 9 =
      some (gradient_exact x_kern (step_frame 1 3 3) 0 0,
        gradient_exact y_kern (step_frame 1 3 3) 0 0) :=
  get_pixel_sobel_eq_formula (step_frame 1 3 3) 0 0 (by decide) (by decide) (by decide)
    (by decide)

/-- C2 (as stated, refuted): at `(R, G, B) = (3, 0, 0)` the weighted sum is `0.6378`,
which rounds to `1`, but `get_pixel_grayscale` returns `0`. -/
theorem get_pixel_grayscale_not_rounded :
    (get_pixel_grayscale 3 0 0).val ≠ luma_rounded 3 0 0 := by decide

/-- C2 (amended): for every channel triple `get_pixel_grayscale` returns the
double-precision weighted sum truncated toward zero.  That value never exceeds
the floor of the exact weighted sum, is at most one below it, equals it unless
the exact weighted sum is an integer, and is at most 255. -/
theorem get_pixel_grayscale_truncates (R G B : Byte) :
    (get_pixel_grayscale R G B).val = dtrunc (luma_double R G B) ∧
    (get_pixel_grayscale R G B).val ≤ luma_exact_e4 R G B / 10000 ∧
    luma_exact_e4 R G B / 10000 ≤ (get_pixel_grayscale R G B).val + 1 ∧
    (luma_exact_e4 R G B % 10000 = 0 ∨
      (get_pixel_grayscale R G B).val = luma_exact_e4 R G B / 10000) ∧
    (get_pixel_grayscale R G B).val ≤ 255 := by
  rw [get_pixel_grayscale_val]
  exact ⟨rfl, dtrunc_luma_double R G B⟩

set_option maxRecDepth 100000 in
/-- C3 (code at the failing input): on `edge_frame`, with the zero-initialised
buffers of `main`, the edge sample left by `generate_image` is `0` while the
Frame Convolver writes `255`. -/
theorem tiled_scheduler_differs_from_convolver :
    ((Threaded.generate_image edge_frame (Mat.zeros 3 3) (Mat.zeros 1 1)).bind
        fun buffers => buffers.2.at? 0 0) = some 0 ∧
    ((Naive.process_frame edge_frame (Mat.zeros 3 3) (Mat.zeros 1 1)).bind
        fun out => out.at? 0 0) = some 255 := by
  constructor <;> decide

/-- C4: for every frame width `w` (an `int`, so below `2^31`) the four shares
computed by `generate_image` start at `i * floor(w/4)`, have `floor(w/4)` indices
for workers 0..2 and `w - 3 * floor(w/4)` for worker 3, are contiguous, and every
column index lies in `[0, w)` exactly when it belongs to a worker, and then to
exactly one. -/
theorem shares_partition_width (w : Nat) (hw : w < 2 ^ 31) :
    (∀ i : Nat, i < Threaded.NUM_THREADS →
      (Threaded.thread_argument w i).bottom_row_index = ((i * (w / 4) : Nat) : Int) ∧
      (Threaded.thread_argument w i).rows_to_read =
        if i = 3 then w - 3 * (w / 4) else w / 4) ∧
    (Threaded.thread_argument w 0).bottom_row_index = 0 ∧
    (∀ i : Nat, i + 1 < Threaded.NUM_THREADS →
      (Threaded.thread_argument w (i + 1)).bottom_row_index =
        (Threaded.thread_argument w i).bottom_row_index
          + (Threaded.thread_argument w i).rows_to_read) ∧
    (Threaded.thread_argument w 3).bottom_row_index
      + (Threaded.thread_argument w 3).rows_to_read = w ∧
    (∀ c : Int, (0 ≤ c ∧ c < w) ↔
      ∃ i : Nat, i < Threaded.NUM_THREADS ∧ in_share (Threaded.thread_argument w i) c) ∧
    (∀ (c : Int) (i j : Nat), i < Threaded.NUM_THREADS → j < Threaded.NUM_THREADS →
      in_share (Threaded.thread_argument w i) c →
      in_share (Threaded.thread_argument w j) c → i = j) := by
  have hw' : w < 2147483648 := by simpa using hw
  have a₀ := thread_argument_eq w hw' 0 (by omega)
  have a₁ := thread_argument_eq w hw' 1 (by omega)
  have a₂ := thread_argument_eq w hw' 2 (by omega)
  have a₃ := thread_argument_eq w hw' 3 (by omega)
  simp only [Nat.reduceEqDiff, reduceIte, Nat.zero_mul, Nat.one_mul] at a₀ a₁ a₂ a₃
  unfold Threaded.NUM_THREADS
  refine ⟨?_, ?_, ?_, ?_, ?_, ?_⟩
  · intro i hi
    rw [thread_argument_eq w hw' i hi]
    exact ⟨rfl, rfl⟩
  · rw [a₀]; rfl
  · intro i hi
    have hi' : i < 3 := by omega
    interval_cases i
    · rw [a₀, a₁]; dsimp only; omega
    · rw [a₁, a₂]; dsimp only; omega
    · rw [a₂, a₃]; dsimp only; omega
  · rw [a₃]; dsimp only; omega
  · intro c
    constructor
    · rintro ⟨hc₀, hc₁⟩
      by_cases h₁ : c < ((w / 4 : Nat) : Int)
      · exact ⟨0, by omega, by rw [a₀]; unfold in_share; dsimp only; omega⟩
      · by_cases h₂ : c < 2 * ((w / 4 : Nat) : Int)
        · exact ⟨1, by omega, by rw [a₁]; unfold in_share; dsimp only; omega⟩
        · by_cases h₃ : c < 3 * ((w / 4 : Nat) : Int)
          · exact ⟨2, by omega, by rw [a₂]; unfold in_share; dsimp only; omega⟩
          · exact ⟨3, by omega, by rw [a₃]; unfold in_share; dsimp only; omega⟩
    · rintro ⟨i, hi, hc⟩
      interval_cases i
      · rw [a₀] at hc; unfold in_share at hc; dsimp only at hc; omega
      · rw [a₁] at hc; unfold in_share at hc; dsimp only at hc; omega
      · rw [a₂] at hc; unfold in_share at hc; dsimp only at hc; omega
      · rw [a₃] at hc; unfold in_share at hc; dsimp only at hc; omega
  · intro c i j hi hj hci hcj
    unfold in_share at hci hcj
    rw [thread_argument_eq w hw' i hi] at hci
    rw [thread_argument_eq w hw' j hj] at hcj
    dsimp only at hci hcj
    interval_cases i <;> interval_cases j <;>
      simp only [Nat.reduceEqDiff, reduceIte, Nat.zero_mul, Nat.one_mul] at hci hcj <;>
      omega

/-- C4 witness: the width 10, which is not a multiple of four. -/
theorem shares_partition_width_witness :
    (∀ i : Nat, i < Threaded.NUM_THREADS →
      (Threaded.thread_argument 10 i).bottom_row_index = ((i * (10 / 4) : Nat) : Int) ∧
      (Threaded.thread_argument 10 i).rows_to_read =
        if i = 3 then 10 - 3 * (10 / 4) else 10 / 4) ∧
    (Threaded.thread_argument 10 0).bottom_row_index = 0 ∧
    (∀ i : Nat, i + 1 < Threaded.NUM_THREADS →
      (Threaded.thread_argument 10 (i + 1)).bottom_row_index =
        (Threaded.thread_argument 10 i).bottom_row_index
          + (Threaded.thread_argument 10 i).rows_to_read) ∧
    (Threaded.thread_argument 10 3).bottom_row_index
      + (Threaded.thread_argument 10 3).rows_to_read = (10 : Nat) ∧
    (∀ c : Int, (0 ≤ c ∧ c < (10 : Nat)) ↔
      ∃ i : Nat, i < Threaded.NUM_THREADS ∧ in_share (Threaded.thread_argument 10 i) c) ∧
    (∀ (c : Int) (i j : Nat), i < Threaded.NUM_THREADS → j < Threaded.NUM_THREADS →
      in_share (Threaded.thread_argument 10 i) c →
      in_share (Threaded.thread_argument 10 j) c → i = j) :=
  shares_partition_width 10 (by decide)

/-- C5: a luminance frame of at least 3×3 samples that all equal the same byte `c`
makes `get_sobel` produce an edge frame, two rows and two columns smaller, in
which every sample is `0`. -/
theorem get_sobel_flat_field (c : Byte) (g s : Mat Byte) (hW : 3 ≤ g.cols) (hH : 3 ≤ g.rows)
    (hsc : s.cols = g.cols - 2) (hsr : s.rows = g.rows - 2)
    (hflat : ∀ r k : Nat, r < g.rows → k < g.cols → g.data r k = c) :
    ∃ out : Mat Byte, Naive.get_sobel g s = some out ∧
      out.rows = g.rows - 2 ∧ out.cols = g.cols - 2 ∧
      ∀ y x : Nat, y < out.rows → x < out.cols → out.at? y x = some 0 := by
  refine ⟨_, get_sobel_closed_form g s (by omega) (by omega), hsr, hsc, ?_⟩
  intro y x hy hx
  dsimp only at hy hx
  rw [Mat.at?_of_inside _ (by omega) (by dsimp only; omega) (by omega) (by dsimp only; omega)]
  dsimp only
  rw [Int.toNat_ofNat, Int.toNat_ofNat, if_pos ⟨hy, hx⟩, steps_exact_x_kern_nine,
    steps_exact_y_kern_nine]
  have e : ∀ r k : Nat, r < g.rows → k < g.cols → sample g r k = (c.val : Int) := by
    intro r k hr hk
    unfold sample
    rw [hflat r k hr hk]
  rw [e y x (by omega) (by omega), e y (x + 1) (by omega) (by omega),
    e y (x + 2) (by omega) (by omega), e (y + 1) x (by omega) (by omega),
    e (y + 1) (x + 2) (by omega) (by omega), e (y + 2) x (by omega) (by omega),
    e (y + 2) (x + 1) (by omega) (by omega), e (y + 2) (x + 2) (by omega) (by omega)]
  have z₁ : ((c.val : Int) + 2 * (c.val : Int) + (c.val : Int))
      - ((c.val : Int) + 2 * (c.val : Int) + (c.val : Int)) = 0 := by ring
  rw [z₁]
  rfl

/-- C5 witness: the 4×3 frame of constant 7. -/
theorem get_sobel_flat_field_witness :
    ∃ out : Mat Byte, Naive.get_sobel (flat_frame 7 4 3) (Mat.zeros 2 1) = some out ∧
      out.rows = (flat_frame 7 4 3).rows - 2 ∧ out.cols = (flat_frame 7 4 3).cols - 2 ∧
      ∀ y x : Nat, y < out.rows → x < out.cols → out.at? y x = some 0 :=
  get_sobel_flat_field 7 (flat_frame 7 4 3) (Mat.zeros 2 1) (by decide) (by decide) rfl rfl
    (fun _ _ _ _ => rfl)

/-- C6: on a luminance frame of at least 3×3 samples with a hard vertical boundary
at column `b` (`0` left of it, `255` from it on; any `b`, in particular
`1 ≤ b ≤ W - 1`), `get_sobel` writes `255`, the clamp of `|Gx| + |Gy| = 1020`, at
the output columns `b - 2` and `b - 1` and `0` at every other edge sample. -/
theorem get_sobel_step_edge (b : Nat) (g s : Mat Byte) (hW : 3 ≤ g.cols) (hH : 3 ≤ g.rows)
    (hsc : s.cols = g.cols - 2) (hsr : s.rows = g.rows - 2)
    (hstep : ∀ r k : Nat, r < g.rows → k < g.cols →
      g.data r k = if k < b then 0 else 255) :
    ∃ out : Mat Byte, Naive.get_sobel g s = some out ∧
      out.rows = g.rows - 2 ∧ out.cols = g.cols - 2 ∧
      ∀ y x : Nat, y < out.rows → x < out.cols →
        out.at? y x = some (if x + 2 = b ∨ x + 1 = b then 255 else 0) ∧
        (x + 2 = b ∨ x + 1 = b →
          |gradient_exact x_kern g x y| + |gradient_exact y_kern g x y| = 1020) := by
  refine ⟨_, get_sobel_closed_form g s (by omega) (by omega), hsr, hsc, ?_⟩
  intro y x hy hx
  dsimp only at hy hx
  rw [Mat.at?_of_inside _ (by omega) (by dsimp only; omega) (by omega) (by dsimp only; omega)]
  dsimp only
  rw [Int.toNat_ofNat, Int.toNat_ofNat, if_pos ⟨hy, hx⟩, gradient_exact_eq_steps,
    gradient_exact_eq_steps, steps_exact_x_kern_nine, steps_exact_y_kern_nine]
  have e : ∀ r k : Nat, r < g.rows → k < g.cols →
      sample g r k = if k < b then 0 else 255 := by
    intro r k hr hk
    unfold sample
    rw [hstep r k hr hk]
    split_ifs <;> rfl
  rw [e y x (by omega) (by omega), e y (x + 1) (by omega) (by omega),
    e y (x + 2) (by omega) (by omega), e (y + 1) x (by omega) (by omega),
    e (y + 1) (x + 2) (by omega) (by omega), e (y + 2) x (by omega) (by omega),
    e (y + 2) (x + 1) (by omega) (by omega), e (y + 2) (x + 2) (by omega) (by omega)]
  by_cases h₀ : x < b <;> by_cases h₁ : x + 1 < b <;> by_cases h₂ : x + 2 < b <;>
    first
    | omega
    | (have hn : ¬(x + 2 = b ∨ x + 1 = b) := by omega
       simp only [h₀, h₁, h₂, hn, if_true, if_false]
       norm_num
       exact sobel_combine_zero)
    | (have hp : x + 2 = b ∨ x + 1 = b := by omega
       simp only [h₀, h₁, h₂, hp, if_true, if_false]
       norm_num
       exact sobel_combine_step)

/-- C6 witness: the 5×3 frame with the boundary at column 2. -/
theorem get_sobel_step_edge_witness :
    ∃ out : Mat Byte, Naive.get_sobel (step_frame 2 5 3) (Mat.zeros 3 1) = some out ∧
      out.rows = (step_frame 2 5 3).rows - 2 ∧ out.cols = (step_frame 2 5 3).cols - 2 ∧
      ∀ y x : Nat, y < out.rows → x < out.cols →
        out.at? y x = some (if x + 2 = 2 ∨ x + 1 = 2 then 255 else 0) ∧
        (x + 2 = 2 ∨ x + 1 = 2 →
          |gradient_exact x_kern (step_frame 2 5 3) x y|
            + |gradient_exact y_kern (step_frame 2 5 3) x y| = 1020) :=
  get_sobel_step_edge 2 (step_frame 2 5 3) (Mat.zeros 3 1) (by decide) (by decide) rfl rfl
    (fun _ _ _ _ => rfl)

/-- C7 (as stated, refuted): in row 0 of the edge frame of `line_frame` the sample
of output column 1 is not larger than those of columns 0 and 2, so the claimed
shape "maximum at column 1, smaller values beside it" fails. -/
theorem line_frame_maximum_not_at_centre :
    ¬ ∀ y : Int, y ∈ [0, 1, 2] → ∃ a b c : Byte,
        line_edge y 0 = some a ∧ line_edge y 1 = some b ∧ line_edge y 2 = some c ∧
        a < b ∧ c < b := by
  intro h
  obtain ⟨a, b, c, ha, hb, -, hab, -⟩ := h 0 (by simp)
  have e₀ : line_edge 0 0 = some 255 := by
    set_option maxRecDepth 100000 in decide
  have e₁ : line_edge 0 1 = some 0 := by
    set_option maxRecDepth 100000 in decide
  rw [e₀] at ha
  rw [e₁] at hb
  cases ha
  cases hb
  exact absurd hab (by decide)

set_option maxRecDepth 100000 in
/-- C7 (amended): for `line_frame`, `get_grayscale` followed by `get_sobel` yields a
3×3 edge frame whose samples are `0` in output column 1 (the window centred on the
bright line) and `255`, the maximum, in output columns 0 and 2. -/
theorem line_frame_edge_values :
    (line_edge 0 0 = some 255 ∧ line_edge 0 1 = some 0 ∧ line_edge 0 2 = some 255) ∧
    (line_edge 1 0 = some 255 ∧ line_edge 1 1 = some 0 ∧ line_edge 1 2 = some 255) ∧
    (line_edge 2 0 = some 255 ∧ line_edge 2 1 = some 0 ∧ line_edge 2 2 = some 255) := by
  refine ⟨⟨?_, ?_, ?_⟩, ⟨?_, ?_, ?_⟩, ⟨?_, ?_, ?_⟩⟩ <;> decide

/-- C8 (as stated, refuted): full white is mapped to `254`, not to `255`. -/
theorem get_pixel_grayscale_white_ne_255 :
    get_pixel_grayscale 255 255 255 ≠ 255 := by decide

/-- C8 (amended): for every channel triple the value returned by
`get_pixel_grayscale` is in `[0, 255]` without the clamp or the narrowing to
`uint8_t` changing it; `(0,0,0)` is mapped to `0` and `(255,255,255)` to `254`,
the truncation of the double sum `254.99999999999997`. -/
theorem get_pixel_grayscale_range (R G B : Byte) :
    (0 ≤ pixel_grayscale_clamped R G B ∧ pixel_grayscale_clamped R G B ≤ 255 ∧
      ((get_pixel_grayscale R G B).val : Int) = pixel_grayscale_clamped R G B ∧
      pixel_grayscale_clamped R G B = toUInt16 (dtrunc (luma_double R G B))) ∧
    get_pixel_grayscale 0 0 0 = 0 ∧
    get_pixel_grayscale 255 255 255 = 254 ∧
    luma_double 255 255 255 = 255 * DBL_ONE - 2 ^ 11 := by
  have h := (dtrunc_luma_double R G B).2.2.2
  refine ⟨⟨?_, ?_, ?_, ?_⟩, by decide, by decide, by decide⟩
  · rw [pixel_grayscale_clamped_eq]; omega
  · rw [pixel_grayscale_clamped_eq]; omega
  · rw [pixel_grayscale_clamped_eq, get_pixel_grayscale_val]
  · rw [pixel_grayscale_clamped_eq, toUInt16_of_range (by omega) (by omega)]

/-- C9: `get_pixel_grayscale` maps pure red `(255,0,0)` to `54`, pure green
`(0,255,0)` to `182` and pure blue `(0,0,255)` to `18` (exactly, hence within
the tolerance of 1). -/
theorem get_pixel_grayscale_pure_colours :
    get_pixel_grayscale 255 0 0 = 54 ∧ get_pixel_grayscale 0 255 0 = 182 ∧
    get_pixel_grayscale 0 0 255 = 18 := by decide

/-- C10: for every 3×3 window inside a luminance frame, `get_pixel_sobel` is the
nine accumulation steps followed by the combination; after each step both
`int16_t` accumulators hold the exact (unwrapped) sums of the terms added so far,
whose magnitudes are at most `1020`; the magnitudes `x_mag`, `y_mag` are the
absolute values and their `uint16_t` sum is at most `2040` and is stored without
wrapping. -/
theorem sobel_accumulators_in_range (g : Mat Byte) (x y : Int)
    (hx₀ : 0 ≤ x) (hx₁ : x + 2 < g.cols) (hy₀ : 0 ≤ y) (hy₁ : y + 2 < g.rows) :
    get_pixel_sobel x y g = (sobel_steps x y g 9).map sobel_combine ∧
    (∀ n : Nat, n ≤ 9 → ∃ x_grad y_grad : Int,
      sobel_steps x y g n = some (x_grad, y_grad) ∧
      x_grad = steps_exact x_kern g x y n ∧ y_grad = steps_exact y_kern g x y n ∧
      |x_grad| ≤ 1020 ∧ |y_grad| ≤ 1020) ∧
    (∃ x_grad y_grad : Int, sobel_steps x y g 9 = some (x_grad, y_grad) ∧
      x_grad = gradient_exact x_kern g x y ∧ y_grad = gradient_exact y_kern g x y ∧
      sobel_mag x_grad = |x_grad| ∧ sobel_mag y_grad = |y_grad| ∧
      sobel_mag x_grad + sobel_mag y_grad ≤ 2040 ∧
      toUInt16 (sobel_mag x_grad + sobel_mag y_grad) =
        sobel_mag x_grad + sobel_mag y_grad) := by
  refine ⟨get_pixel_sobel_eq_steps x y g, ?_, ?_⟩
  · intro n hn
    have hb := steps_exact_bound g x y n hn
    exact ⟨_, _, sobel_steps_eq_exact g x y hx₀ hx₁ hy₀ hy₁ n hn, rfl, rfl,
      abs_le.mpr hb.1, abs_le.mpr hb.2⟩
  · have hb := steps_exact_bound g x y 9 (le_refl 9)
    have ex := sobel_mag_eq_abs _ hb.1.1 hb.1.2
    have ey := sobel_mag_eq_abs _ hb.2.1 hb.2.2
    have ax : |steps_exact x_kern g x y 9| ≤ 1020 := abs_le.mpr hb.1
    have ay : |steps_exact y_kern g x y 9| ≤ 1020 := abs_le.mpr hb.2
    have ax₀ := abs_nonneg (steps_exact x_kern g x y 9)
    have ay₀ := abs_nonneg (steps_exact y_kern g x y 9)
    refine ⟨_, _, sobel_steps_eq_exact g x y hx₀ hx₁ hy₀ hy₁ 9 (le_refl 9),
      (gradient_exact_eq_steps _ g x y).symm, (gradient_exact_eq_steps _ g x y).symm,
      ex, ey, ?_, ?_⟩
    · rw [ex, ey]; omega
    · rw [ex, ey]; exact toUInt16_of_range (by omega) (by omega)

/-- C10 witness: the single window of the 3×3 step frame. -/
theorem sobel_accumulators_in_range_witness :
    get_pixel_sobel 0 0 (step_frame 1 3 3) =
      (sobel_steps 0 0 (step_frame 1 3 3) 9).map sobel_combine ∧
    (∀ n : Nat, n ≤ 9 → ∃ x_grad y_grad : Int,
      sobel_steps 0 0 (step_frame 1 3 3) n = some (x_grad, y_grad) ∧
      x_grad = steps_exact x_kern (step_frame 1 3 3) 0 0 n ∧
      y_grad = steps_exact y_kern (step_frame 1 3 3) 0 0 n ∧
      |x_grad| ≤ 1020 ∧ |y_grad| ≤ 1020) ∧
    (∃ x_grad y_grad : Int, sobel_steps 0 0 (step_frame 1 3 3) 9 = some (x_grad, y_grad) ∧
      x_grad = gradient_exact x_kern (step_frame 1 3 3) 0 0 ∧
      y_grad = gradient_exact y_kern (step_frame 1 3 3) 0 0 ∧
      sobel_mag x_grad = |x_grad| ∧ sobel_mag y_grad = |y_grad| ∧
      sobel_mag x_grad + sobel_mag y_grad ≤ 2040 ∧
      toUInt16 (sobel_mag x_grad + sobel_mag y_grad) =
        sobel_mag x_grad + sobel_mag y_grad) :=
  sobel_accumulators_in_range (step_frame 1 3 3) 0 0 (by decide) (by decide) (by decide)
    (by decide)

/-- C11: with the buffers dimensioned as in `main` (luminance `W × H`, edge
`(W-2) × (H-2)`) and whatever they held before, `get_grayscale` terminates with a
luminance frame whose sample `(y, x)` is `get_pixel_grayscale` of channels 2, 1, 0
of input pixel `(y, x)`, and `get_sobel` terminates with an edge frame whose
sample `(y, x)` is `get_pixel_sobel(x, y, luminance)`.  Every read of either
buffer returns what the same read of `luminance_of input`, respectively
`get_pixel_sobel` on `luminance_of input`, returns: nothing of the previous
contents is left. -/
theorem frame_convolver_pointwise (input : Mat Vec3b) (gray sobel : Mat Byte)
    (hW : 3 ≤ input.cols) (hH : 3 ≤ input.rows)
    (hgr : gray.rows = input.rows) (hgc : gray.cols = input.cols)
    (hsr : sobel.rows = input.rows - 2) (hsc : sobel.cols = input.cols - 2) :
    ∃ lumi out : Mat Byte,
      Naive.get_grayscale input gray = some lumi ∧ Naive.get_sobel lumi sobel = some out ∧
      lumi.rows = input.rows ∧ lumi.cols = input.cols ∧
      out.rows = input.rows - 2 ∧ out.cols = input.cols - 2 ∧
      (∀ y x : Nat, y < input.rows → x < input.cols →
        lumi.at? y x = some (get_pixel_grayscale (input.data y x 2) (input.data y x 1)
          (input.data y x 0))) ∧
      (∀ y x : Nat, y < input.rows - 2 → x < input.cols - 2 →
        (out.at? y x).isSome ∧ out.at? y x = get_pixel_sobel x y lumi) ∧
      (∀ y x : Int, lumi.at? y x = (luminance_of input).at? y x) ∧
      (∀ y x : Int, out.at? y x =
        if 0 ≤ y ∧ y < ((input.rows - 2 : Nat) : Int) ∧ 0 ≤ x ∧
            x < ((input.cols - 2 : Nat) : Int) then
          get_pixel_sobel x y (luminance_of input)
        else none) := by
  have hg := get_grayscale_closed_form input gray (by omega) (by omega)
  have key : ∀ y x : Nat, y < input.rows - 2 → x < input.cols - 2 →
      get_pixel_sobel x y (⟨gray.rows, gray.cols, fun r c =>
        if r < input.rows ∧ c < input.cols then (luminance_of input).data r c
        else gray.data r c⟩ : Mat Byte) =
        some (sobel_combine
          (steps_exact x_kern (⟨gray.rows, gray.cols, fun r c =>
            if r < input.rows ∧ c < input.cols then (luminance_of input).data r c
            else gray.data r c⟩ : Mat Byte) x y 9,
           steps_exact y_kern (⟨gray.rows, gray.cols, fun r c =>
            if r < input.rows ∧ c < input.cols then (luminance_of input).data r c
            else gray.data r c⟩ : Mat Byte) x y 9)) ∧
      get_pixel_sobel x y (⟨gray.rows, gray.cols, fun r c =>
        if r < input.rows ∧ c < input.cols then (luminance_of input).data r c
        else gray.data r c⟩ : Mat Byte) = get_pixel_sobel x y (luminance_of input) := by
    intro y x hy hx
    refine ⟨get_pixel_sobel_inside _ x y (by dsimp only; omega) (by dsimp only; omega), ?_⟩
    refine get_pixel_sobel_congr (luminance_of input) _ x y
      (by show x + 2 < input.cols; omega) (by show y + 2 < input.rows; omega) hgr hgc ?_
    intro r c hr hc
    dsimp only
    rw [if_pos ⟨hr, hc⟩]
  refine ⟨_, _, hg, get_sobel_closed_form _ sobel (by dsimp only; omega)
    (by dsimp only; omega), hgr, hgc, hsr, hsc, ?_, ?_, ?_, ?_⟩
  · intro y x hy hx
    rw [Mat.at?_of_inside _ (by omega) (by dsimp only; omega) (by omega)
      (by dsimp only; omega)]
    dsimp only
    rw [Int.toNat_ofNat, Int.toNat_ofNat, if_pos ⟨hy, hx⟩]
    rfl
  · intro y x hy hx
    rw [Mat.at?_of_inside _ (by omega) (by dsimp only; omega) (by omega)
      (by dsimp only; omega)]
    dsimp only
    rw [Int.toNat_ofNat, Int.toNat_ofNat, if_pos ⟨by omega, by omega⟩, (key y x hy hx).1]
    exact ⟨rfl, rfl⟩
  · intro y x
    unfold Mat.at?
    dsimp only [luminance_of]
    rw [hgr, hgc]
    by_cases h : 0 ≤ y ∧ y < (input.rows : Int) ∧ 0 ≤ x ∧ x < (input.cols : Int)
    · rw [if_pos h, if_pos h, if_pos ⟨by omega, by omega⟩]
    · rw [if_neg h, if_neg h]
  · intro y x
    unfold Mat.at?
    dsimp only
    rw [hsr, hsc]
    by_cases h : 0 ≤ y ∧ y < ((input.rows - 2 : Nat) : Int) ∧ 0 ≤ x ∧
        x < ((input.cols - 2 : Nat) : Int)
    · rw [if_pos h, if_pos h, if_pos ⟨by omega, by omega⟩]
      have hk := key y.toNat x.toNat (by omega) (by omega)
      rw [Int.toNat_of_nonneg h.1, Int.toNat_of_nonneg h.2.2.1] at hk
      rw [← hk.2, hk.1]
      have ey : ((y.toNat : Nat) : Int) = y := Int.toNat_of_nonneg h.1
      have ex : ((x.toNat : Nat) : Int) = x := Int.toNat_of_nonneg h.2.2.1
      rw [← ey, ← ex, Int.toNat_ofNat, Int.toNat_ofNat]
    · rw [if_neg h, if_neg h]

/-- C11 witness: the 3×3 colour frame `edge_frame` on the buffers of `main`. -/
theorem frame_convolver_pointwise_witness :
    ∃ lumi out : Mat Byte,
      Naive.get_grayscale edge_frame (Mat.zeros 3 3) = some lumi ∧
      Naive.get_sobel lumi (Mat.zeros 1 1) = some out ∧
      lumi.rows = edge_frame.rows ∧ lumi.cols = edge_frame.cols ∧
      out.rows = edge_frame.rows - 2 ∧ out.cols = edge_frame.cols - 2 ∧
      (∀ y x : Nat, y < edge_frame.rows → x < edge_frame.cols →
        lumi.at? y x = some (get_pixel_grayscale (edge_frame.data y x 2)
          (edge_frame.data y x 1) (edge_frame.data y x 0))) ∧
      (∀ y x : Nat, y < edge_frame.rows - 2 → x < edge_frame.cols - 2 →
        (out.at? y x).isSome ∧ out.at? y x = get_pixel_sobel x y lumi) ∧
      (∀ y x : Int, lumi.at? y x = (luminance_of edge_frame).at? y x) ∧
      (∀ y x : Int, out.at? y x =
        if 0 ≤ y ∧ y < ((edge_frame.rows - 2 : Nat) : Int) ∧ 0 ≤ x ∧
            x < ((edge_frame.cols - 2 : Nat) : Int) then
          get_pixel_sobel x y (luminance_of edge_frame)
        else none) :=
  frame_convolver_pointwise edge_frame (Mat.zeros 3 3) (Mat.zeros 1 1) (by decide) (by decide)
    rfl rfl rfl rfl

/-- C12: with a luminance frame of `W × H ≥ 3 × 3` samples and an edge frame of
`(W-2) × (H-2)`, each of the nine reads that `get_sobel` makes for each `(x, y)`
it iterates has its row in `[0, H)` and its column in `[0, W)` and is defined;
so is every loop body, `get_pixel_sobel`, and `get_sobel` itself. -/
theorem get_sobel_reads_inside (g s : Mat Byte) (hW : 3 ≤ g.cols) (hH : 3 ≤ g.rows)
    (hsc : s.cols = g.cols - 2) (hsr : s.rows = g.rows - 2) :
    (∀ y x : Nat, y < s.rows → x < s.cols →
      (∀ j i : Nat, j < 3 → i < 3 →
        (0 ≤ (y : Int) + 1 + j - 1 ∧ (y : Int) + 1 + j - 1 < g.rows ∧
          0 ≤ (x : Int) + 1 + i - 1 ∧ (x : Int) + 1 + i - 1 < g.cols) ∧
        (g.at? ((y : Int) + 1 + j - 1) ((x : Int) + 1 + i - 1)).isSome ∧
        ∀ grad : Int × Int, (sobel_accumulate g ((x : Int) + 1) ((y : Int) + 1) j i grad).isSome) ∧
      (get_pixel_sobel x y g).isSome) ∧
    (Naive.get_sobel g s).isSome := by
  refine ⟨?_, ?_⟩
  · intro y x hy hx
    refine ⟨?_, ?_⟩
    · intro j i hj hi
      have hb : 0 ≤ (y : Int) + 1 + j - 1 ∧ (y : Int) + 1 + j - 1 < g.rows ∧
          0 ≤ (x : Int) + 1 + i - 1 ∧ (x : Int) + 1 + i - 1 < g.cols := by omega
      refine ⟨hb, ?_, ?_⟩
      · rw [Mat.at?_of_inside g hb.1 hb.2.1 hb.2.2.1 hb.2.2.2]
        rfl
      · intro grad
        rw [sobel_accumulate_inside g _ _ j i grad hb.1 hb.2.1 hb.2.2.1 hb.2.2.2]
        rfl
    · rw [get_pixel_sobel_inside g x y (by omega) (by omega)]
      rfl
  · rw [get_sobel_closed_form g s (by omega) (by omega)]
    rfl

/-- C12 witness: the 5×3 step frame and its 3×1 edge frame. -/
theorem get_sobel_reads_inside_witness :
    (∀ y x : Nat, y < (Mat.zeros 3 1).rows → x < (Mat.zeros 3 1).cols →
      (∀ j i : Nat, j < 3 → i < 3 →
        (0 ≤ (y : Int) + 1 + j - 1 ∧ (y : Int) + 1 + j - 1 < (step_frame 2 5 3).rows ∧
          0 ≤ (x : Int) + 1 + i - 1 ∧ (x : Int) + 1 + i - 1 < (step_frame 2 5 3).cols) ∧
        ((step_frame 2 5 3).at? ((y : Int) + 1 + j - 1) ((x : Int) + 1 + i - 1)).isSome ∧
        ∀ grad : Int × Int,
          (sobel_accumulate (step_frame 2 5 3) ((x : Int) + 1) ((y : Int) + 1) j i grad).isSome) ∧
      (get_pixel_sobel x y (step_frame 2 5 3)).isSome) ∧
    (Naive.get_sobel (step_frame 2 5 3) (Mat.zeros 3 1)).isSome :=
  get_sobel_reads_inside (step_frame 2 5 3) (Mat.zeros 3 1) (by decide) (by decide) rfl rfl

set_option maxRecDepth 100000 in
/-- C13 (code at the failing input): called with the share `[0, 1)`, the stage
functions of `Sobel.cpp` overwrite cell `(1, 1)`, whose row and column both lie
outside the share: `get_grayscale` turns the `0` of the buffer into `254`,
`get_sobel` into `255`. -/
theorem stage_functions_write_outside_share :
    (Mat.zeros 2 2).at? 1 1 = some 0 ∧
    ((Threaded.get_grayscale white_frame (Mat.zeros 2 2) 0 1).bind
        fun frame => frame.at? 1 1) = some 254 ∧
    ((Threaded.get_sobel (step_frame 2 4 4) (Mat.zeros 2 2) 0 1).bind
        fun frame => frame.at? 1 1) = some 255 := by
  refine ⟨?_, ?_, ?_⟩ <;> decide

/-- C14: for a stream geometry `W × H` with `W, H ≥ 3`, on the buffers that `main`
dimensions, the luminance frame after `get_grayscale` has `W` columns and `H`
rows and the edge frame after `get_sobel` has exactly `W - 2` columns and `H - 2`
rows, hence at least one sample. -/
theorem edge_frame_dimensions (input : Mat Vec3b) (W H : Int) (hW : 3 ≤ W) (hH : 3 ≤ H)
    (hic : (input.cols : Int) = W) (hir : (input.rows : Int) = H) :
    ∃ lumi out : Mat Byte,
      Naive.get_grayscale input (Naive.main_buffers W H).1 = some lumi ∧
      Naive.get_sobel lumi (Naive.main_buffers W H).2 = some out ∧
      Naive.process_frame input (Naive.main_buffers W H).1 (Naive.main_buffers W H).2
        = some out ∧
      (lumi.cols : Int) = W ∧ (lumi.rows : Int) = H ∧
      (out.cols : Int) = W - 2 ∧ (out.rows : Int) = H - 2 ∧
      1 ≤ out.cols ∧ 1 ≤ out.rows := by
  have hg := get_grayscale_closed_form input (Naive.main_buffers W H).1
    (by show input.rows ≤ H.toNat; omega) (by show input.cols ≤ W.toNat; omega)
  have hs := get_sobel_closed_form
    (⟨(Naive.main_buffers W H).1.rows, (Naive.main_buffers W H).1.cols, fun r c =>
      if r < input.rows ∧ c < input.cols then (luminance_of input).data r c
      else (Naive.main_buffers W H).1.data r c⟩ : Mat Byte) (Naive.main_buffers W H).2
    (by show (W - 2).toNat + 2 ≤ W.toNat; omega) (by show (H - 2).toNat + 2 ≤ H.toNat; omega)
  refine ⟨_, _, hg, hs, ?_, ?_, ?_, ?_, ?_, ?_, ?_⟩
  · unfold Naive.process_frame
    rw [hg, some_bind_eq, hs]
  · show ((W.toNat : Nat) : Int) = W; omega
  · show ((H.toNat : Nat) : Int) = H; omega
  · show (((W - 2).toNat : Nat) : Int) = W - 2; omega
  · show (((H - 2).toNat : Nat) : Int) = H - 2; omega
  · show 1 ≤ (W - 2).toNat; omega
  · show 1 ≤ (H - 2).toNat; omega

/-- C14 witness: the 3×3 colour frame `edge_frame`. -/
theorem edge_frame_dimensions_witness :
    ∃ lumi out : Mat Byte,
      Naive.get_grayscale edge_frame (Naive.main_buffers 3 3).1 = some lumi ∧
      Naive.get_sobel lumi (Naive.main_buffers 3 3).2 = some out ∧
      Naive.process_frame edge_frame (Naive.main_buffers 3 3).1 (Naive.main_buffers 3 3).2
        = some out ∧
      (lumi.cols : Int) = 3 ∧ (lumi.rows : Int) = 3 ∧
      (out.cols : Int) = 3 - 2 ∧ (out.rows : Int) = 3 - 2 ∧
      1 ≤ out.cols ∧ 1 ≤ out.rows :=
  edge_frame_dimensions edge_frame 3 3 (by decide) (by decide) rfl rfl

/-- C15: for every frame width `w` (an `int`, so below `2^31`) each of the first
three workers of `generate_image` gets exactly `floor(w/4)` indices and the last
gets `floor(w/4) + (w mod 4)`; any two shares differ in size by at most `3`, and
the four sizes sum to `w`. -/
theorem shares_near_equal (w : Nat) (hw : w < 2 ^ 31) :
    (∀ i : Nat, i < 3 → (Threaded.thread_argument w i).rows_to_read = w / 4) ∧
    (Threaded.thread_argument w 3).rows_to_read = w / 4 + w % 4 ∧
    (∀ i j : Nat, i < Threaded.NUM_THREADS → j < Threaded.NUM_THREADS →
      (Threaded.thread_argument w i).rows_to_read ≤
        (Threaded.thread_argument w j).rows_to_read + (Threaded.NUM_THREADS - 1)) ∧
    (Threaded.thread_argument w 0).rows_to_read + (Threaded.thread_argument w 1).rows_to_read
      + (Threaded.thread_argument w 2).rows_to_read
      + (Threaded.thread_argument w 3).rows_to_read = w := by
  have hw' : w < 2147483648 := by simpa using hw
  have a₀ := thread_argument_eq w hw' 0 (by omega)
  have a₁ := thread_argument_eq w hw' 1 (by omega)
  have a₂ := thread_argument_eq w hw' 2 (by omega)
  have a₃ := thread_argument_eq w hw' 3 (by omega)
  simp only [Nat.reduceEqDiff, reduceIte, Nat.zero_mul, Nat.one_mul] at a₀ a₁ a₂ a₃
  unfold Threaded.NUM_THREADS
  refine ⟨?_, ?_, ?_, ?_⟩
  · intro i hi
    interval_cases i
    · rw [a₀]
    · rw [a₁]
    · rw [a₂]
  · rw [a₃]; dsimp only; omega
  · intro i j hi hj
    interval_cases i <;> interval_cases j <;>
      simp only [a₀, a₁, a₂, a₃] <;> omega
  · rw [a₀, a₁, a₂, a₃]; dsimp only; omega

/-- C15 witness: the width 10 gives the sizes 2, 2, 2, 4. -/
theorem shares_near_equal_witness :
    (∀ i : Nat, i < 3 → (Threaded.thread_argument 10 i).rows_to_read = 10 / 4) ∧
    (Threaded.thread_argument 10 3).rows_to_read = 10 / 4 + 10 % 4 ∧
    (∀ i j : Nat, i < Threaded.NUM_THREADS → j < Threaded.NUM_THREADS →
      (Threaded.thread_argument 10 i).rows_to_read ≤
        (Threaded.thread_argument 10 j).rows_to_read + (Threaded.NUM_THREADS - 1)) ∧
    (Threaded.thread_argument 10 0).rows_to_read + (Threaded.thread_argument 10 1).rows_to_read
      + (Threaded.thread_argument 10 2).rows_to_read
      + (Threaded.thread_argument 10 3).rows_to_read = 10 :=
  shares_near_equal 10 (by decide)

/-- C16: `parse_args` exits exactly when `argc` is not 2, and then with the
diagnostic message and status 1; when `argc` is 2 it returns with
`in_vid_filename` set to `argv[1]`, the only field there is.  In `main` of either
program the exit comes before anything else: when `argc` is not 2 the run ends
with the diagnostic and status 1, no source opened and no frame processed or
shown, whatever the collaborators would deliver; when `argc` is 2 the run does
not end in `parse_args`: it opens `argv[1]` and nothing else, and ends with the
other diagnostic and status 1 when that source cannot be opened. -/
theorem parse_args_outcome (world : World) (argc : Int) (argv : Nat → String)
    (fname_info : Naive.FnameInfo) :
    ((∃ e, Naive.parse_args argc argv fname_info = Except.error e) ↔ argc ≠ 2) ∧
    (Naive.parse_args argc argv fname_info =
        Except.error
          { message := "Bad arguments, requires path to input video.\n", status := 1 } ∨
      argc = 2) ∧
    (Naive.parse_args argc argv fname_info = Except.ok { in_vid_filename := argv 1 } ∨
      argc ≠ 2) ∧
    ((Naive.main world argc argv =
          some { printed := ["Bad arguments, requires path to input video.\n"],
                 opened := [], shown := [], status := 1 } ∧
        Threaded.main world argc argv =
          some { printed := ["Bad arguments, requires path to input video.\n"],
                 opened := [], shown := [], status := 1 }) ∨
      argc = 2) ∧
    ((∀ run : Run, Naive.main world argc argv = some run ∨
          Threaded.main world argc argv = some run → run.opened = [argv 1]) ∨
      argc ≠ 2) ∧
    ((Naive.main world argc argv =
          some { printed := ["Failed to open video capturer\n"],
                 opened := [argv 1], shown := [], status := 1 } ∧
        Threaded.main world argc argv =
          some { printed := ["Failed to open video capturer\n"],
                 opened := [argv 1], shown := [], status := 1 }) ∨
      (world.open_video (argv 1)).isSome ∨ argc ≠ 2) := by
  by_cases h : argc = 2
  · refine ⟨⟨?_, fun hne => absurd h hne⟩, Or.inr h, Or.inl ?_, Or.inr h, Or.inl ?_, ?_⟩
    · rintro ⟨e, he⟩
      unfold Naive.parse_args at he
      rw [if_neg (not_not.mpr h)] at he
      cases he
    · unfold Naive.parse_args
      rw [if_neg (not_not.mpr h)]
    · intro run hrun
      unfold Naive.main Threaded.main Naive.parse_args at hrun
      rw [if_neg (not_not.mpr h)] at hrun
      dsimp only at hrun
      cases hv : world.open_video (argv 1) with
      | none =>
        rw [hv] at hrun
        dsimp only at hrun
        rcases hrun with hrun | hrun <;> cases hrun <;> rfl
      | some video =>
        rw [hv] at hrun
        dsimp only at hrun
        rcases hrun with hrun | hrun
        · cases hl : frame_loop Naive.frame_step world.wait_key video.frames
              (Naive.main_buffers video.width video.height).1
              (Naive.main_buffers video.width video.height).2 0 [] with
          | none => rw [hl] at hrun; cases hrun
          | some shown => rw [hl] at hrun; cases hrun; rfl
        · cases hl : frame_loop Threaded.generate_image world.wait_key video.frames
              (Naive.main_buffers video.width video.height).1
              (Naive.main_buffers video.width video.height).2 0 [] with
          | none => rw [hl] at hrun; cases hrun
          | some shown => rw [hl] at hrun; cases hrun; rfl
    · cases hv : world.open_video (argv 1) with
      | some video => exact Or.inr (Or.inl rfl)
      | none =>
        refine Or.inl ⟨?_, ?_⟩
        · unfold Naive.main Naive.parse_args
          rw [if_neg (not_not.mpr h)]
          dsimp only
          rw [hv]
        · unfold Threaded.main Naive.parse_args
          rw [if_neg (not_not.mpr h)]
          dsimp only
          rw [hv]
  · refine ⟨⟨fun _ => h, fun _ => ⟨_, by unfold Naive.parse_args; rw [if_pos h]⟩⟩,
      Or.inl ?_, Or.inr h, Or.inl ⟨?_, ?_⟩, Or.inr h, Or.inr (Or.inr h)⟩
    · unfold Naive.parse_args
      rw [if_pos h]
    · unfold Naive.main Naive.parse_args
      rw [if_pos h]
    · unfold Threaded.main Naive.parse_args
      rw [if_pos h]

/-- C17: for every luminance frame and every interior `(x, y)`, the evaluator that
indexes the kernels `kern[j][i]` (standard orientation) holds in its accumulators
the negated accumulators of `get_pixel_sobel` with the roles exchanged, and
returns the same value as `get_pixel_sobel`, which indexes `kern[i][j]`.
Equivalently, `get_sobel` of the transposed luminance frame is the transpose of
`get_sobel` of the frame. -/
theorem get_pixel_sobel_orientation (g s : Mat Byte) (hc : s.cols + 2 ≤ g.cols)
    (hr : s.rows + 2 ≤ g.rows) :
    (∀ x y : Int, 0 ≤ x → x + 2 < g.cols → 0 ≤ y → y + 2 < g.rows →
      (∃ x_grad y_grad : Int, sobel_steps x y g 9 = some (x_grad, y_grad) ∧
        sobel_steps_standard x y g 9 = some (-y_grad, -x_grad)) ∧
      get_pixel_sobel_standard x y g = get_pixel_sobel x y g) ∧
    (∃ out out_t : Mat Byte, Naive.get_sobel g s = some out ∧
      Naive.get_sobel g.transpose s.transpose = some out_t ∧
      out_t.rows = out.cols ∧ out_t.cols = out.rows ∧
      ∀ y x : Nat, y < out.rows → x < out.cols → out_t.at? x y = out.at? y x) := by
  refine ⟨?_, ?_⟩
  · intro x y hx₀ hx₁ hy₀ hy₁
    have hs := sobel_steps_eq_exact g x y hx₀ hx₁ hy₀ hy₁ 9 (le_refl 9)
    have ht := sobel_steps_standard_eq_exact g x y hx₀ hx₁ hy₀ hy₁ 9 (le_refl 9)
    have hb := steps_exact_bound g x y 9 (le_refl 9)
    refine ⟨⟨_, _, hs, ht⟩, ?_⟩
    rw [get_pixel_sobel_standard_eq_steps, get_pixel_sobel_eq_steps, hs, ht]
    show some (sobel_combine _) = some (sobel_combine _)
    rw [sobel_combine_neg_swap _ _ hb.1.1 hb.1.2 hb.2.1 hb.2.2]
  · refine ⟨_, _, get_sobel_closed_form g s hc hr,
      get_sobel_closed_form g.transpose s.transpose hr hc, rfl, rfl, ?_⟩
    intro y x hy hx
    dsimp only at hy hx
    rw [Mat.at?_of_inside _ (by omega) (by dsimp only [Mat.transpose]; omega) (by omega)
        (by dsimp only [Mat.transpose]; omega),
      Mat.at?_of_inside _ (by omega) (by dsimp only; omega) (by omega)
        (by dsimp only; omega)]
    dsimp only [Mat.transpose]
    rw [Int.toNat_ofNat, Int.toNat_ofNat, if_pos ⟨hx, hy⟩, if_pos ⟨hy, hx⟩]
    have hb := steps_exact_bound g x y 9 (le_refl 9)
    have ex : steps_exact x_kern g.transpose y x 9 = -steps_exact y_kern g x y 9 := by
      rw [steps_exact_x_kern_nine, steps_exact_y_kern_nine]
      simp only [sample_transpose]
      ring
    have ey : steps_exact y_kern g.transpose y x 9 = -steps_exact x_kern g x y 9 := by
      rw [steps_exact_x_kern_nine, steps_exact_y_kern_nine]
      simp only [sample_transpose]
      ring
    have e : sobel_combine (steps_exact x_kern g.transpose y x 9,
        steps_exact y_kern g.transpose y x 9) =
        sobel_combine (steps_exact x_kern g x y 9, steps_exact y_kern g x y 9) := by
      rw [ex, ey]
      exact sobel_combine_neg_swap _ _ hb.1.1 hb.1.2 hb.2.1 hb.2.2
    exact congrArg some e

/-- C17 witness: the 5×3 step frame and its 3×1 edge frame. -/
theorem get_pixel_sobel_orientation_witness :
    (∀ x y : Int, 0 ≤ x → x + 2 < (step_frame 2 5 3).cols → 0 ≤ y →
        y + 2 < (step_frame 2 5 3).rows →
      (∃ x_grad y_grad : Int, sobel_steps x y (step_frame 2 5 3) 9 = some (x_grad, y_grad) ∧
        sobel_steps_standard x y (step_frame 2 5 3) 9 = some (-y_grad, -x_grad)) ∧
      get_pixel_sobel_standard x y (step_frame 2 5 3) = get_pixel_sobel x y (step_frame 2 5 3)) ∧
    (∃ out out_t : Mat Byte, Naive.get_sobel (step_frame 2 5 3) (Mat.zeros 3 1) = some out ∧
      Naive.get_sobel (step_frame 2 5 3).transpose (Mat.zeros 3 1).transpose = some out_t ∧
      out_t.rows = out.cols ∧ out_t.cols = out.rows ∧
      ∀ y x : Nat, y < out.rows → x < out.cols → out_t.at? x y = out.at? y x) :=
  get_pixel_sobel_orientation (step_frame 2 5 3) (Mat.zeros 3 1) (by decide) (by decide)

/-- C18: the exact decimal weights sum to one, so the exact weighted sum of every
channel triple is at most 255; in the code the truncated double is at most 255 as
well, so the conversion to `uint16_t` is in range and changes nothing, the test
`pixel_grayscale > UINT8_MAX` is false and the clamp branch is never taken. -/
theorem luma_clamp_never_taken (R G B : Byte) :
    luma_exact_e4 1 1 1 = 10000 ∧
    luma_exact_e4 R G B ≤ 255 * 10000 ∧
    dtrunc (luma_double R G B) ≤ 255 ∧
    toUInt16 (dtrunc (luma_double R G B)) = dtrunc (luma_double R G B) ∧
    ¬ (toUInt16 (dtrunc (luma_double R G B)) > UINT8_MAX) ∧
    pixel_grayscale_clamped R G B = toUInt16 (dtrunc (luma_double R G B)) := by
  have h := (dtrunc_luma_double R G B).2.2.2
  have hR := R.isLt
  have hG := G.isLt
  have hB := B.isLt
  have e : toUInt16 (dtrunc (luma_double R G B)) = dtrunc (luma_double R G B) :=
    toUInt16_of_range (by omega) (by omega)
  refine ⟨by decide, ?_, h, e, ?_, ?_⟩
  · unfold luma_exact_e4; omega
  · rw [e]; unfold UINT8_MAX; omega
  · rw [pixel_grayscale_clamped_eq, e]

/-- C19 (as stated, refuted): the neutral gray pixel `(5, 5, 5)` does not keep its
level. -/
theorem get_pixel_grayscale_gray_not_fixed :
    get_pixel_grayscale 5 5 5 ≠ 5 := by decide

/-- C19 (amended): for every byte `v` the exact decimal weighted sum of `(v, v, v)`
is exactly `v`, and `get_pixel_grayscale(v, v, v)` is `v` except at the 62 levels
of `gray_levels_lowered` (among them 5 and 255), where it is `v - 1`. -/
theorem get_pixel_grayscale_gray (v : Byte) :
    luma_exact_e4 v v v = 10000 * v.val ∧
    (get_pixel_grayscale v v v).val =
      (if v.val ∈ gray_levels_lowered then v.val - 1 else v.val) ∧
    ((get_pixel_grayscale v v v).val = v.val ∨ (get_pixel_grayscale v v v).val + 1 = v.val) ∧
    gray_levels_lowered.length = 62 := by
  have ht := gray_level_table v
  have hd := dtrunc_luma_double v v v
  have he : luma_exact_e4 v v v = 10000 * v.val := by unfold luma_exact_e4; omega
  refine ⟨he, ht, ?_, by decide⟩
  rw [get_pixel_grayscale_val]
  rw [he] at hd
  omega

/-- C20: for every luminance frame `L` and every interior `(x, y)`,
`get_pixel_sobel` returns on the inverted frame `255 - L` what it returns on `L`,
and on the shifted frame `L + c` what it returns on `L`, for every constant `c`
that keeps all samples of `L + c` in `[0, 255]`. -/
theorem get_pixel_sobel_invariances (g : Mat Byte) (x y : Int)
    (hx₀ : 0 ≤ x) (hx₁ : x + 2 < g.cols) (hy₀ : 0 ≤ y) (hy₁ : y + 2 < g.rows) :
    get_pixel_sobel x y (invert_frame g) = get_pixel_sobel x y g ∧
    ∀ c : Int,
      (∀ r k : Nat, r < g.rows → k < g.cols →
        0 ≤ sample g r k + c ∧ sample g r k + c ≤ 255) →
      get_pixel_sobel x y (shift_frame g c) = get_pixel_sobel x y g := by
  obtain ⟨xn, rfl⟩ := Int.eq_ofNat_of_zero_le hx₀
  obtain ⟨yn, rfl⟩ := Int.eq_ofNat_of_zero_le hy₀
  have hxn : xn + 2 < g.cols := by omega
  have hyn : yn + 2 < g.rows := by omega
  have hb := steps_exact_bound g xn yn 9 (le_refl 9)
  refine ⟨?_, ?_⟩
  · rw [get_pixel_sobel_inside g xn yn hxn hyn,
      get_pixel_sobel_inside (invert_frame g) xn yn hxn hyn]
    have ex : steps_exact x_kern (invert_frame g) xn yn 9 = -steps_exact x_kern g xn yn 9 := by
      rw [steps_exact_x_kern_nine, steps_exact_x_kern_nine]
      simp only [sample_invert_frame]
      ring
    have ey : steps_exact y_kern (invert_frame g) xn yn 9 = -steps_exact y_kern g xn yn 9 := by
      rw [steps_exact_y_kern_nine, steps_exact_y_kern_nine]
      simp only [sample_invert_frame]
      ring
    rw [ex, ey, sobel_combine_neg _ _ hb.1.1 hb.1.2 hb.2.1 hb.2.2]
  · intro c hc
    rw [get_pixel_sobel_inside g xn yn hxn hyn,
      get_pixel_sobel_inside (shift_frame g c) xn yn hxn hyn]
    have e : ∀ r k : Nat, r < g.rows → k < g.cols →
        sample (shift_frame g c) r k = sample g r k + c :=
      fun r k hr hk => sample_shift_frame g c r k (hc r k hr hk).1 (hc r k hr hk).2
    have ex : steps_exact x_kern (shift_frame g c) xn yn 9 = steps_exact x_kern g xn yn 9 := by
      rw [steps_exact_x_kern_nine, steps_exact_x_kern_nine,
        e yn xn (by omega) (by omega), e yn (xn + 1) (by omega) (by omega),
        e yn (xn + 2) (by omega) (by omega), e (yn + 2) xn (by omega) (by omega),
        e (yn + 2) (xn + 1) (by omega) (by omega), e (yn + 2) (xn + 2) (by omega) (by omega)]
      ring
    have ey : steps_exact y_kern (shift_frame g c) xn yn 9 = steps_exact y_kern g xn yn 9 := by
      rw [steps_exact_y_kern_nine, steps_exact_y_kern_nine,
        e yn xn (by omega) (by omega), e (yn + 1) xn (by omega) (by omega),
        e (yn + 2) xn (by omega) (by omega), e yn (xn + 2) (by omega) (by omega),
        e (yn + 1) (xn + 2) (by omega) (by omega), e (yn + 2) (xn + 2) (by omega) (by omega)]
      ring
    rw [ex, ey]

/-- C20 witness: the window of `soft_step_frame`, inverted and shifted by 50. -/
theorem get_pixel_sobel_invariances_witness :
    get_pixel_sobel 0 0 (invert_frame soft_step_frame) = get_pixel_sobel 0 0 soft_step_frame ∧
    get_pixel_sobel 0 0 (shift_frame soft_step_frame 50) =
      get_pixel_sobel 0 0 soft_step_frame :=
  ⟨(get_pixel_sobel_invariances soft_step_frame 0 0 (by decide) (by decide) (by decide)
      (by decide)).1,
   (get_pixel_sobel_invariances soft_step_frame 0 0 (by decide) (by decide) (by decide)
      (by decide)).2 50 (by
        intro r k _ _
        unfold sample soft_step_frame
        dsimp only
        split_ifs <;> decide)⟩

end Sobel
